import Mathlib

/-!
A verification development for the data cleaning + column analysis pipeline of the
BAD (Basic Analysis of Data) backend: `backend/services/cleaner.py` (`load_and_clean`)
and `backend/services/analyzer.py` (`analyze_dataframe`).

The pipeline is shallowly embedded: a pandas `DataFrame` is a list of column names,
a list of column dtypes and a list of rows of cells; machine floats are modelled by
exact rationals; missing cells (`NaN`) are a dedicated constructor.  Library calls
made by the source (`pd.read_csv`, `astype(str).str.strip()`, `dropna(how="all")`,
`drop_duplicates()`, `value_counts()`, …) are translated from pandas' documented
semantics at the granularity the source observes.
-/

namespace BAD

/-- A single cell of a table: missing (`NaN`), a number (pandas int64/float64 values,
modelled by exact rationals), a string, or a boolean. -/
inductive Cell where
  | na : Cell
  | num (q : ℚ) : Cell
  | str (s : String) : Cell
  | bool (b : Bool) : Cell
deriving DecidableEq, Repr

/-- The pandas column dtypes that can arise in this pipeline. -/
inductive Dtype where
  | int64 : Dtype
  | float64 : Dtype
  | boolean : Dtype
  | object : Dtype
deriving DecidableEq, Repr

/-- A pandas `DataFrame`: an ordered list of column names, their dtypes, and the rows.
Rows are stored row-major; column `j` of a row is its `j`-th entry. -/
structure DataFrame where
  colNames : List String
  dtypes : List Dtype
  rows : List (List Cell)
deriving DecidableEq, Repr

/-- The cells of column `j`, top to bottom (missing where a row is too short). -/
def colCells (df : DataFrame) (j : Nat) : List Cell :=
  df.rows.map (fun r => r.getD j Cell.na)

/-- Python exceptions that the pipeline can raise, as observed by its caller:
the cleaner's typed `ValueError` for a bad extension, decode failure after the
encoding fallback, parser errors, and the untyped `AttributeError`/`TypeError`
crashes that duplicate column labels cause in the cleaning loop / analyzer. -/
inductive PyError where
  | unsupportedFormat : PyError
  | decodeFailure : PyError
  | parseFailure : PyError
  | attributeError : PyError
  | typeError : PyError
deriving DecidableEq, Repr

/-! ### Python string primitives

`str.strip()`, `str.lower()` and `str.endswith` as used by the cleaner, modelled
character-wise (ASCII-faithful, which is all the extension checks and whitespace
stripping need). -/

/-- Whitespace as stripped by Python's `str.strip()` (ASCII subset). -/
def wsChar (c : Char) : Bool :=
  c = ' ' || c = '\t' || c = '\n' || c = '\r' || c = '\x0b' || c = '\x0c'

/-- Remove leading whitespace. -/
def trimLeft (l : List Char) : List Char := l.dropWhile wsChar

/-- Remove trailing whitespace. -/
def trimRight (l : List Char) : List Char := (l.reverse.dropWhile wsChar).reverse

/-- `str.strip()` on a character list. -/
def stripChars (l : List Char) : List Char := trimRight (trimLeft l)

/-- Python `str.strip()`. -/
def pstrip (s : String) : String := ⟨stripChars s.data⟩

/-- Python `str.lower()` (ASCII case folding, which is what the `.csv`/`.xlsx`
suffix checks observe). -/
def pyLower (s : String) : String := ⟨s.data.map Char.toLower⟩

/-- Python `str.endswith(suffix)`. -/
def pyEndsWith (s suf : String) : Bool := suf.data.isSuffixOf s.data

/-! ### Separator splitting and joining

`splitSep` models how the CSV text is cut into lines (`'\n'`) and fields (`','`),
and how a numeric literal is cut at the decimal point. `joinSep` is the writer's
inverse (pandas `to_csv` quotes nothing in this model; the idempotence theorem
restricts itself to cells without separator characters). -/

def splitSep (sep : Char) : List Char → List (List Char)
  | [] => [[]]
  | c :: cs =>
    let r := splitSep sep cs
    if c = sep then [] :: r
    else
      match r with
      | [] => [[c]]
      | f :: rest => (c :: f) :: rest

def joinSep (sep : Char) : List (List Char) → List Char
  | [] => []
  | [p] => p
  | p :: ps => p ++ sep :: joinSep sep ps

/-! ### Decimal digits: printing and parsing

pandas converts CSV fields to int64/float64 values and `to_csv` prints them back.
The printer/parser pair below models the decimal subset actually exchanged. -/

def digitChar (n : Nat) : Char :=
  match n with
  | 0 => '0' | 1 => '1' | 2 => '2' | 3 => '3' | 4 => '4'
  | 5 => '5' | 6 => '6' | 7 => '7' | 8 => '8' | _ => '9'

def digitVal (c : Char) : Nat := c.toNat - 48

/-- The decimal digits of `n`, most significant first (fuel-based so that the
kernel can evaluate it). -/
def natDigsAux : Nat → Nat → List Char
  | 0, _ => []
  | fuel + 1, n => if n < 10 then [digitChar n] else natDigsAux fuel (n / 10) ++ [digitChar (n % 10)]

def natDigs (n : Nat) : List Char := natDigsAux (n + 1) n

/-- The numeric value of a digit string (assuming all characters are digits). -/
def digitsVal (l : List Char) : Nat := l.foldl (fun a c => a * 10 + digitVal c) 0

/-! ### Numeric fields

pandas' C tokenizer converts a whole CSV column to int64 when every field parses
as an integer, else to float64 when every field parses as a number (or is a
missing-value token), tolerating surrounding whitespace.  `parseIntField` /
`parseNumField` model the decimal subset of that syntax; the broader recognizer
`numericLikeField` (exponents, infinities, NaN spellings) over-approximates the
full pandas syntax and is used only in side conditions. -/

def parseNatDigits (l : List Char) : Option Nat :=
  if l = [] then none
  else if l.all Char.isDigit then some (digitsVal l)
  else none

def parseIntChars (l : List Char) : Option ℤ :=
  if l.head? = some '-' then (parseNatDigits l.tail).map (fun m => -(m : ℤ))
  else if l.head? = some '+' then (parseNatDigits l.tail).map (fun m => (m : ℤ))
  else (parseNatDigits l).map (fun m => (m : ℤ))

/-- Integer syntax of a CSV field (pandas tolerates surrounding whitespace). -/
def parseIntField (s : String) : Option ℤ := parseIntChars (stripChars s.data)

def parseNumChars (l : List Char) : Option ℚ :=
  let neg : Bool := l.head? = some '-'
  let body : List Char :=
    if l.head? = some '-' ∨ l.head? = some '+' then l.tail else l
  match splitSep '.' body with
  | [ip] =>
    if ip = [] then none
    else if ip.all Char.isDigit then
      some (if neg then -(digitsVal ip : ℚ) else (digitsVal ip : ℚ))
    else none
  | [ip, fp] =>
    if ip = [] ∧ fp = [] then none
    else if ip.all Char.isDigit ∧ fp.all Char.isDigit then
      let v : ℚ := ((digitsVal ip * 10 ^ fp.length + digitsVal fp : ℕ) : ℚ) / ((10 ^ fp.length : ℕ) : ℚ)
      some (if neg then -v else v)
    else none
  | _ => none

/-- Decimal-number syntax of a CSV field. -/
def parseNumField (s : String) : Option ℚ := parseNumChars (stripChars s.data)

/-- pandas' default `na_values`: fields read as missing. -/
def naTokens : List String :=
  ["", "#N/A", "#N/A N/A", "#NA", "-1.#IND", "-1.#QNAN", "-NaN", "-nan",
   "1.#IND", "1.#QNAN", "<NA>", "N/A", "NA", "NULL", "NaN", "None", "n/a", "nan", "null"]

def isNaField (s : String) : Bool := decide (s ∈ naTokens)

/-- The boolean tokens recognised by pandas' C tokenizer. -/
def boolTrueTokens : List String := ["True", "TRUE"]

def boolFalseTokens : List String := ["False", "FALSE"]

def isBoolField (s : String) : Bool :=
  decide (s ∈ boolTrueTokens) || decide (s ∈ boolFalseTokens)

def boolFieldVal (s : String) : Bool := decide (s ∈ boolTrueTokens)

def upperAscii (s : String) : String := ⟨s.data.map Char.toUpper⟩

/-- Over-approximation of every field pandas' float converter accepts
(plain decimals, scientific notation, infinities and NaN spellings).
Used only in side conditions of the idempotence theorem. -/
def numericLikeField (s : String) : Bool :=
  let body := stripChars s.data
  (parseNumChars body).isSome ||
  (match body.findIdx? (fun c => c == 'e' || c == 'E') with
   | some i => (parseNumChars (body.take i)).isSome && (parseIntChars (body.drop (i + 1))).isSome
   | none => false) ||
  decide (upperAscii ⟨body⟩ ∈
    ["INF", "INFINITY", "NAN", "+INF", "+INFINITY", "+NAN", "-INF", "-INFINITY", "-NAN"])

/-- Over-approximation of every field pandas' bool converter accepts. -/
def boolLikeField (s : String) : Bool :=
  decide (upperAscii ⟨stripChars s.data⟩ ∈ ["TRUE", "FALSE"])

/-! ### Number printing (pandas `to_csv`) -/

/-- Divide out the factor `p` from `n`: returns the multiplicity and the
remaining cofactor (fuel-based). -/
def stripPAux (p : Nat) : Nat → Nat → Nat × Nat
  | 0, n => (0, n)
  | fuel + 1, n =>
    if 2 ≤ p ∧ 0 < n ∧ n % p = 0 then
      let cr := stripPAux p fuel (n / p)
      (cr.1 + 1, cr.2)
    else (0, n)

def stripP (p n : Nat) : Nat × Nat := stripPAux p n n

/-- Does `n` divide a power of ten? (i.e. is `1/n` a finite decimal?) -/
def isDecimalDen (n : Nat) : Bool := (stripP 5 (stripP 2 n).2).2 == 1

/-- `str()` of an int64 value. -/
def intRepr (n : ℤ) : String := ⟨(if n < 0 then ['-'] else []) ++ natDigs n.natAbs⟩

/-- A decimal rendering of a float64 value with an explicit decimal point,
as pandas' `to_csv` prints floats (`30.0`, `2.5`, `-0.125`).  For values whose
denominator is not a power of ten times a power of two/five (impossible for
values that were parsed from decimal text) the rendering is approximate; the
round-trip theorems restrict to `isDecimalDen`. -/
def floatRepr (q : ℚ) : String :=
  let den := q.den
  let a := (stripP 2 den).1
  let b := (stripP 5 (stripP 2 den).2).1
  let k := max (a + b) 1
  let m := q.num.natAbs * 10 ^ k / den
  let fpDigs := natDigs (m % 10 ^ k)
  ⟨(if q.num < 0 then ['-'] else []) ++ natDigs (m / 10 ^ k) ++
    '.' :: (List.replicate (k - fpDigs.length) '0' ++ fpDigs)⟩

/-- `str()` of a cell value, as Python renders it (`astype(str)` in the cleaner,
`.astype(str)` in the analyzer's text branch): missing cells render as the
literal string `"nan"`. -/
def pyStr (c : Cell) : String :=
  match c with
  | .na => "nan"
  | .num q => floatRepr q
  | .str s => s
  | .bool b => if b then "True" else "False"

/-! ### CSV parsing (`pd.read_csv`)

Faithful to the defaults `load_and_clean` relies on: `header=0`, blank lines
skipped, short rows padded with missing, long rows a parser error, blank header
fields renamed `Unnamed: i`, duplicate header fields de-duplicated with `.k`
suffixes, per-column dtype inference (int64 / float64 / bool / object), default
`na_values`. Quoting is not modelled. -/

def unnamedFix : Nat → List String → List String
  | _, [] => []
  | i, n :: ns => (if n = "" then "Unnamed: " ++ (⟨natDigs i⟩ : String) else n) :: unnamedFix (i + 1) ns

def countsGet (m : List (String × Nat)) (k : String) : Nat := (m.lookup k).getD 0

/-- The renaming loop of pandas' `dedup_names`: while the candidate name is
taken, append `.k`.  Fuel-bounded (the bound is irrelevant when the raw names
are distinct, which is the only case the theorems rely on). -/
def mangleLoop : Nat → List (String × Nat) → String → Nat → String × List (String × Nat)
  | 0, m, col, _ => (col, m)
  | fuel + 1, m, col, cur =>
    if cur = 0 then (col, m)
    else
      let m' := (col, cur + 1) :: m
      let col' := col ++ "." ++ (⟨natDigs cur⟩ : String)
      mangleLoop fuel m' col' (countsGet m' col')

def dedupNamesAux : List (String × Nat) → List String → List String
  | _, [] => []
  | m, col :: rest =>
    let cm := mangleLoop 100 m col (countsGet m col)
    cm.1 :: dedupNamesAux ((cm.1, countsGet cm.2 cm.1 + 1) :: cm.2) rest

/-- pandas' `dedup_names` applied to the header row. -/
def dedupNames (names : List String) : List String := dedupNamesAux [] names

/-- Column dtype inference of the C parser: all-integer fields give int64,
numeric-or-missing fields give float64, boolean tokens (with no missing) give
bool, anything else (including an empty frame) gives object. -/
def inferDtype (fields : List String) : Dtype :=
  if fields.isEmpty then .object
  else if fields.all (fun f => (parseIntField f).isSome) then .int64
  else if fields.all (fun f => isNaField f || (parseNumField f).isSome) then .float64
  else if fields.all isBoolField then .boolean
  else .object

def convertField (dt : Dtype) (f : String) : Cell :=
  match dt with
  | .int64 =>
    match parseIntField f with
    | some n => .num (n : ℚ)
    | none => .na
  | .float64 =>
    if isNaField f then .na
    else
      match parseNumField f with
      | some q => .num q
      | none => .na
  | .boolean => .bool (boolFieldVal f)
  | .object => if isNaField f then .na else .str f

def parseCsv (content : String) : Except PyError DataFrame :=
  let ls := (splitSep '\n' content.data).filter (fun l => !l.isEmpty)
  match ls with
  | [] => .error .parseFailure
  | header :: body =>
    let rawNames := (splitSep ',' header).map (fun cs => (⟨cs⟩ : String))
    let names := dedupNames (unnamedFix 0 rawNames)
    let ncols := rawNames.length
    let fieldRows := body.map (fun l => (splitSep ',' l).map (fun cs => (⟨cs⟩ : String)))
    if fieldRows.any (fun r => decide (ncols < r.length)) then .error .parseFailure
    else
      let padded := fieldRows.map (fun r => r ++ List.replicate (ncols - r.length) "")
      let dtypes := (List.range ncols).map (fun j => inferDtype (padded.map (fun r => r.getD j "")))
      .ok ⟨names, dtypes, padded.map (fun r => List.zipWith convertField dtypes r)⟩

/-! ### The cleaner (`load_and_clean` after loading) -/

/-- `df[col] = df[col].astype(str).str.strip()` for every object-dtype column:
every cell (missing included) is converted to its string form and stripped. -/
def trimCells (df : DataFrame) : DataFrame :=
  { df with
    rows := df.rows.map (fun r =>
      List.zipWith (fun dt c => if dt = Dtype.object then Cell.str (pstrip (pyStr c)) else c)
        df.dtypes r) }

/-- `df.dropna(how="all")`: keep the rows with at least one non-missing cell. -/
def dropAllNaRows (df : DataFrame) : DataFrame :=
  { df with rows := df.rows.filter (fun r => r.any (fun c => decide (c ≠ Cell.na))) }

/-- pandas `duplicated(keep="first")` semantics: drop an element when it was
seen before. -/
def dedupSeen {α : Type} [DecidableEq α] : List α → List α → List α
  | _, [] => []
  | seen, x :: xs => if x ∈ seen then dedupSeen seen xs else x :: dedupSeen (x :: seen) xs

/-- `df.drop_duplicates()` on the list of rows. -/
def drop_duplicates {α : Type} [DecidableEq α] (l : List α) : List α := dedupSeen [] l

def dropDuplicatesRows (df : DataFrame) : DataFrame :=
  { df with rows := drop_duplicates df.rows }

/-- The cleaning phase of `load_and_clean`: strip column names, stringify and
strip object columns, drop all-missing rows, drop duplicate rows.  When the
stripped names contain duplicates, the loop's `df[col].dtype` accesses a
`DataFrame` (not a `Series`) and raises `AttributeError`. -/
def cleanE (df : DataFrame) : Except PyError DataFrame :=
  let names := df.colNames.map pstrip
  let df1 : DataFrame := { df with colNames := names }
  if names.Nodup then
    .ok (dropDuplicatesRows (dropAllNaRows (trimCells df1)))
  else .error .attributeError

/-! ### Byte decoding (the ordered encoding fallback) -/

/-- Byte `i` of the stream (an out-of-range sentinel past the end, which fails
every range check). -/
def byteAt (l : List Nat) (i : Nat) : Nat := l.getD i 256

/-- Decode one UTF-8 sequence: strict — rejects invalid leading bytes,
truncated or out-of-range continuation bytes, overlong forms, surrogates and
code points beyond U+10FFFF. -/
def utf8Dec1 (l : List Nat) : Option (Char × List Nat) :=
  if byteAt l 0 < 128 then some (Char.ofNat (byteAt l 0), l.drop 1)
  else if byteAt l 0 < 194 then none
  else if byteAt l 0 < 224 then
    if 128 ≤ byteAt l 1 ∧ byteAt l 1 < 192 then
      some (Char.ofNat ((byteAt l 0 - 192) * 64 + (byteAt l 1 - 128)), l.drop 2)
    else none
  else if byteAt l 0 < 240 then
    if ((if byteAt l 0 = 224 then 160 else 128) ≤ byteAt l 1 ∧
        byteAt l 1 < (if byteAt l 0 = 237 then 160 else 192)) ∧
        (128 ≤ byteAt l 2 ∧ byteAt l 2 < 192) then
      some (Char.ofNat ((byteAt l 0 - 224) * 4096 + (byteAt l 1 - 128) * 64 +
        (byteAt l 2 - 128)), l.drop 3)
    else none
  else if byteAt l 0 < 245 then
    if ((if byteAt l 0 = 240 then 144 else 128) ≤ byteAt l 1 ∧
        byteAt l 1 < (if byteAt l 0 = 244 then 144 else 192)) ∧
        (128 ≤ byteAt l 2 ∧ byteAt l 2 < 192) ∧ (128 ≤ byteAt l 3 ∧ byteAt l 3 < 192) then
      some (Char.ofNat ((byteAt l 0 - 240) * 262144 + (byteAt l 1 - 128) * 4096 +
        (byteAt l 2 - 128) * 64 + (byteAt l 3 - 128)), l.drop 4)
    else none
  else none

/-- Decode the whole stream (fuel-based; each step consumes at least one byte,
so `length` fuel always suffices). -/
def utf8DecAux : Nat → List Nat → Option (List Char)
  | _, [] => some []
  | 0, _ :: _ => none
  | fuel + 1, b :: t =>
    match utf8Dec1 (b :: t) with
    | some cr => (utf8DecAux fuel cr.2).map (fun cs => cr.1 :: cs)
    | none => none

/-- Strict UTF-8 decoding of a byte stream. -/
def utf8Dec (l : List Nat) : Option (List Char) := utf8DecAux l.length l

def utf8DecStr (bs : List Nat) : Option String := (utf8Dec bs).map (fun cs => (⟨cs⟩ : String))

def encodeChar (c : Char) : List Nat :=
  let v := c.toNat
  if v < 128 then [v]
  else if v < 2048 then [192 + v / 64, 128 + v % 64]
  else if v < 65536 then [224 + v / 4096, 128 + (v / 64) % 64, 128 + v % 64]
  else [240 + v / 262144, 128 + (v / 4096) % 64, 128 + (v / 64) % 64, 128 + v % 64]

def encodeUtf8 (s : String) : List Nat := (s.data.map encodeChar).flatten

def latin1Char (b : Nat) : Char := Char.ofNat (b % 256)

/-- Latin-1 decoding: total — every byte denotes a character. -/
def decodeLatin1 (bs : List Nat) : Option String := some (⟨bs.map latin1Char⟩ : String)

/-- Windows-1252: like Latin-1 except bytes 0x80–0x9F map through a table with
five undefined positions (0x81, 0x8D, 0x8F, 0x90, 0x9D). -/
def cp1252Char (b : Nat) : Option Nat :=
  if b = 128 then some 8364 else if b = 130 then some 8218 else if b = 131 then some 402
  else if b = 132 then some 8222 else if b = 133 then some 8230 else if b = 134 then some 8224
  else if b = 135 then some 8225 else if b = 136 then some 710 else if b = 137 then some 8240
  else if b = 138 then some 352 else if b = 139 then some 8249 else if b = 140 then some 338
  else if b = 142 then some 381 else if b = 145 then some 8216 else if b = 146 then some 8217
  else if b = 147 then some 8220 else if b = 148 then some 8221 else if b = 149 then some 8226
  else if b = 150 then some 8211 else if b = 151 then some 8212 else if b = 152 then some 732
  else if b = 153 then some 8482 else if b = 154 then some 353 else if b = 155 then some 8250
  else if b = 156 then some 339 else if b = 158 then some 382 else if b = 159 then some 376
  else if b = 129 ∨ b = 141 ∨ b = 143 ∨ b = 144 ∨ b = 157 then none
  else some (b % 256)

def decodeCp1252 (bs : List Nat) : Option String :=
  (bs.mapM cp1252Char).map (fun vs => (⟨vs.map Char.ofNat⟩ : String))

/-! ### `load_and_clean` -/

def parseCleanCsv (content : String) : Except PyError DataFrame :=
  match parseCsv content with
  | .ok df => cleanE df
  | .error e => .error e

/-- The `.csv` branch of `load_and_clean`: ordered encoding fallback
(UTF-8, then Latin-1, then Windows-1252), then parse, then clean. -/
def csvPipeline (bytes : List Nat) : Except PyError DataFrame :=
  match utf8DecStr bytes with
  | some s => parseCleanCsv s
  | none =>
    match decodeLatin1 bytes with
    | some s => parseCleanCsv s
    | none =>
      match decodeCp1252 bytes with
      | some s => parseCleanCsv s
      | none => .error .decodeFailure

/-- The `.xlsx` branch of `load_and_clean`: `pd.read_excel`, then clean. -/
def xlsxPipeline (sheet : Except PyError DataFrame) : Except PyError DataFrame :=
  match sheet with
  | .ok df => cleanE df
  | .error e => .error e

/-- `load_and_clean(path)`.  `name` is the file name, `bytes` the file's raw
bytes (consumed by the CSV path), and `sheet` the outcome of `pd.read_excel`
on the file (the external spreadsheet parser, over whose result the xlsx path
is universally quantified). -/
def load_and_clean (name : String) (bytes : List Nat) (sheet : Except PyError DataFrame) :
    Except PyError DataFrame :=
  let n := pyLower name
  if pyEndsWith n ".csv" then csvPipeline bytes
  else if pyEndsWith n ".xlsx" then xlsxPipeline sheet
  else .error .unsupportedFormat

/-! ### The analyzer (`analyze_dataframe`) -/

/-- `pandas.api.types.is_numeric_dtype`: true for int64, float64 and bool. -/
def isNumericDtype (dt : Dtype) : Bool :=
  decide (dt = Dtype.int64) || decide (dt = Dtype.float64) || decide (dt = Dtype.boolean)

/-- The numeric value of a non-missing cell of a numeric-dtype column
(`True`/`False` count as 1/0). -/
def cellNum (c : Cell) : Option ℚ :=
  match c with
  | .num q => some q
  | .bool b => some (if b then 1 else 0)
  | _ => none

def listMin : List ℚ → Option ℚ
  | [] => none
  | x :: xs => some (xs.foldl min x)

def listMax : List ℚ → Option ℚ
  | [] => none
  | x :: xs => some (xs.foldl max x)

def listMean (l : List ℚ) : Option ℚ :=
  if l = [] then none else some (l.sum / (l.length : ℚ))

/-- Position of the first occurrence of `v` in `l`. -/
def firstIdx {α : Type} [DecidableEq α] : List α → α → Nat
  | [], _ => 0
  | x :: xs, v => if x = v then 0 else firstIdx xs v + 1

def countOcc (l : List String) (v : String) : Nat := l.countP (fun s => decide (s = v))

/-- The sort key of `value_counts`: descending count; among equal counts, order
of first appearance (pandas' hash table lists uniques in first-appearance order
and the sort by count is stable). -/
def vcRel : (String × Nat × Nat) → (String × Nat × Nat) → Prop :=
  fun a b => b.2.1 < a.2.1 ∨ (a.2.1 = b.2.1 ∧ a.2.2 ≤ b.2.2)

instance : DecidableRel vcRel := fun a b => by
  unfold vcRel
  infer_instance

instance : IsTotal (String × Nat × Nat) vcRel :=
  ⟨fun a b => by unfold vcRel; omega⟩

instance : IsTrans (String × Nat × Nat) vcRel :=
  ⟨fun a b c hab hbc => by unfold vcRel at *; omega⟩

/-- `Series.value_counts()`: occurrence counts of the distinct values, most
frequent first, ties in first-appearance order. -/
def valueCounts (l : List String) : List (String × Nat) :=
  let ks := drop_duplicates l
  let triples := ks.map (fun v => (v, countOcc l v, firstIdx l v))
  (List.insertionSort vcRel triples).map (fun t => (t.1, t.2.1))

/-- `value_counts().head(5)`. -/
def topValues (l : List String) : List (String × Nat) := (valueCounts l).take 5

inductive Stats where
  | numeric (min max mean : Option ℚ) : Stats
  | text (top_values : List (String × Nat)) : Stats
deriving DecidableEq, Repr

def kindOf : Stats → String
  | .numeric _ _ _ => "numeric"
  | .text _ => "text"

structure ColumnProfile where
  column : String
  dtype : Dtype
  missing : Nat
  stats : Stats
deriving DecidableEq, Repr

/-- The per-column body of the analyzer's loop (the single-label case of
`s = df[col]`). -/
def profileCol (nm : String) (dt : Dtype) (cells : List Cell) : ColumnProfile :=
  let missing := cells.countP (fun c => decide (c = Cell.na))
  if isNumericDtype dt then
    let nonNull := cells.filterMap cellNum
    ⟨nm, dt, missing, .numeric (listMin nonNull) (listMax nonNull) (listMean nonNull)⟩
  else
    let strs := cells.filterMap (fun c => if c = Cell.na then none else some (pyStr c))
    ⟨nm, dt, missing, .text (topValues strs)⟩

/-- A Python `for`-loop that collects one result per element and propagates the
first raised exception. -/
def mapExcept {ε α β : Type} (f : α → Except ε β) : List α → Except ε (List β)
  | [] => .ok []
  | x :: xs =>
    match f x with
    | .ok b =>
      match mapExcept f xs with
      | .ok bs => .ok (b :: bs)
      | .error e => .error e
    | .error e => .error e

/-- `analyze_dataframe(df)`: iterate the column labels; `df[col]` yields the
unique column with that label, or (for a duplicated label) a `DataFrame` on
which `int(s.isna().sum())` raises `TypeError`. -/
def analyze_dataframe (df : DataFrame) : Except PyError (List ColumnProfile) :=
  mapExcept (fun nm =>
    match (List.range df.colNames.length).filter (fun j => decide (df.colNames.getD j "" = nm)) with
    | [j] => .ok (profileCol nm (df.dtypes.getD j Dtype.object) (colCells df j))
    | _ => .error .typeError)
    df.colNames

/-! ### CSV writing (`to_csv(index=False)`), for the idempotence property -/

def cellField (dt : Dtype) (c : Cell) : String :=
  match c with
  | .na => ""
  | .num q => if dt = Dtype.int64 then intRepr q.num else floatRepr q
  | .bool b => if b then "True" else "False"
  | .str s => s

def toCsv (df : DataFrame) : String :=
  let headerLine := joinSep ',' (df.colNames.map String.data)
  let rowLines :=
    df.rows.map (fun r => joinSep ',' ((List.zipWith cellField df.dtypes r).map String.data))
  ⟨joinSep '\n' (headerLine :: rowLines) ++ ['\n']⟩

/-! ### Concrete-input helpers -/

/-- The bytes of an ASCII string (UTF-8 and ASCII agree there). -/
def asciiBytes (s : String) : List Nat := s.data.map Char.toNat

/-- A fixed (irrelevant) `read_excel` outcome for exercising the CSV path. -/
def sheet0 : Except PyError DataFrame := .error .parseFailure

def defaultProfile : ColumnProfile := ⟨"", Dtype.object, 0, Stats.text []⟩

instance {ε α : Type} [DecidableEq ε] [DecidableEq α] : DecidableEq (Except ε α) := fun x y =>
  match x, y with
  | .ok a, .ok b =>
    if h : a = b then isTrue (by rw [h]) else isFalse (by intro hc; cases hc; exact h rfl)
  | .error e, .error f =>
    if h : e = f then isTrue (by rw [h]) else isFalse (by intro hc; cases hc; exact h rfl)
  | .ok _, .error _ => isFalse (by intro hc; cases hc)
  | .error _, .ok _ => isFalse (by intro hc; cases hc)

/-! ## Claim C5: deduplication -/

/-- The spec's description of deduplication, written from its words: walk the
rows front to back carrying the list of earlier rows; remove a row exactly
when it is a duplicate of an earlier row, keep it otherwise (first occurrence
kept, order preserved). -/
def removeDupsOfEarlier {α : Type} [DecidableEq α] : List α → List α → List α
  | _, [] => []
  | earlier, r :: rs =>
    if r ∈ earlier then removeDupsOfEarlier (earlier ++ [r]) rs
    else r :: removeDupsOfEarlier (earlier ++ [r]) rs

/-! ## The round-trip side condition for C9

The counterexample shows idempotence fails as stated.  `RoundTrippable`
collects the conditions the counterexamples force (no missing-value-token or
delimiter-containing text cells, no all-numeric-looking or all-boolean-looking
text column, nonempty column names) together with the modelling boundary of
the CSV layer (rectangular table, at least one column, int64/bool columns
well-typed, numeric values finite decimals — automatic for CSV-parsed data). -/

def goodCell (s : String) : Bool :=
  s.data.all (fun c =>
    !(decide (c = ',') || decide (c = '\n') || decide (c = '\r') || decide (c = '"')))

def cellOKForDtype (dt : Dtype) (c : Cell) : Bool :=
  match dt, c with
  | .int64, .num q => q.den == 1
  | .float64, .na => true
  | .float64, .num q => isDecimalDen q.den
  | .boolean, .bool _ => true
  | .object, .str s => !(isNaField s) && goodCell s
  | _, _ => false

def isNonNumericTextCell (c : Cell) : Bool :=
  match c with
  | .str s => !(numericLikeField s)
  | _ => false

def isNonBoolTextCell (c : Cell) : Bool :=
  match c with
  | .str s => !(boolLikeField s)
  | _ => false

/-- A text column re-reads as a text column: it is empty, or it has some cell
beyond pandas' numeric syntax and some cell beyond its boolean syntax. -/
def textColStable (cells : List Cell) : Bool :=
  cells.isEmpty || (cells.any isNonNumericTextCell && cells.any isNonBoolTextCell)

def RoundTrippable (df : DataFrame) : Bool :=
  !df.colNames.isEmpty
  && df.colNames.all (fun n => !(decide (n = "")) && goodCell n)
  && (df.dtypes.length == df.colNames.length)
  && df.rows.all (fun r => r.length == df.colNames.length)
  && (List.range df.colNames.length).all (fun j =>
      (colCells df j).all (cellOKForDtype (df.dtypes.getD j Dtype.object))
      && (if df.dtypes.getD j Dtype.object = Dtype.object then
            textColStable (colCells df j) else true))

theorem dropWhile_dropWhile (p : Char → Bool) (l : List Char) :
    List.dropWhile p (List.dropWhile p l) = List.dropWhile p l := by
  induction l with
  | nil => rfl
  | cons x xs ih =>
    by_cases h : p x
    · simp [List.dropWhile_cons, h, ih]
    · simp [List.dropWhile_cons, h]

theorem trimLeft_trimLeft (l : List Char) : trimLeft (trimLeft l) = trimLeft l :=
  dropWhile_dropWhile wsChar l

theorem trimRight_trimRight (l : List Char) : trimRight (trimRight l) = trimRight l := by
  simp [trimRight, dropWhile_dropWhile]

/-- `trimRight` only removes a suffix, hence preserves any non-whitespace head. -/
theorem trimLeft_trimRight_of_trimLeft (l : List Char) (h : trimLeft l = l) :
    trimLeft (trimRight l) = trimRight l := by
  cases hl : l with
  | nil => simp [trimRight, trimLeft]
  | cons x xs =>
    have hx : wsChar x = false := by
      by_contra hc
      have hx' : wsChar x = true := by
        cases hwx : wsChar x with
        | false => exact absurd hwx hc
        | true => rfl
      have : trimLeft (x :: xs) = trimLeft xs := by
        simp [trimLeft, List.dropWhile_cons, hx']
      rw [hl] at h
      rw [this] at h
      have hlen : (trimLeft xs).length ≤ xs.length := by
        simpa [trimLeft] using (List.dropWhile_sublist (l := xs) (p := wsChar)).length_le
      rw [h] at hlen
      simp at hlen
    -- trimRight of x :: xs is a prefix of x :: xs, so it is [] or starts with x
    have hpre : trimRight (x :: xs) <+: x :: xs := by
      have hsuf : (x :: xs).reverse.dropWhile wsChar <:+ (x :: xs).reverse :=
        List.dropWhile_suffix wsChar
      rw [trimRight, ← List.reverse_suffix, List.reverse_reverse]
      exact hsuf
    rcases hpre with ⟨t, ht⟩
    cases htr : trimRight (x :: xs) with
    | nil => simp [trimLeft]
    | cons y ys =>
      rw [htr] at ht
      have hy : y = x := by
        have := congrArg (fun u => u.head?) ht
        simpa using this
      subst hy
      simp [trimLeft, List.dropWhile_cons, hx]

/-- Python's `strip` is idempotent. -/
theorem stripChars_idem (l : List Char) : stripChars (stripChars l) = stripChars l := by
  unfold stripChars
  have h1 : trimLeft (trimRight (trimLeft l)) = trimRight (trimLeft l) :=
    trimLeft_trimRight_of_trimLeft (trimLeft l) (trimLeft_trimLeft l)
  rw [h1, trimRight_trimRight]

theorem pstrip_idem (s : String) : pstrip (pstrip s) = pstrip s := by
  simp [pstrip, stripChars_idem]

theorem splitSep_ne_nil (sep : Char) (l : List Char) : splitSep sep l ≠ [] := by
  cases l with
  | nil => simp [splitSep]
  | cons c cs =>
    simp only [splitSep]
    by_cases h : c = sep
    · simp [h]
    · simp only [h, if_false]
      cases splitSep sep cs with
      | nil => simp
      | cons f rest => simp

/-- A separator-free string splits into itself. -/
theorem splitSep_no_sep (sep : Char) :
    ∀ p : List Char, sep ∉ p → splitSep sep p = [p] := by
  intro p
  induction p with
  | nil => intro _; rfl
  | cons c cs ih =>
    intro h
    have hc : ¬ c = sep := fun hcs => h (by simp [hcs])
    have hcs' : sep ∉ cs := fun hm => h (by simp [hm])
    simp [splitSep, hc, ih hcs']

/-- Splitting peels off a separator-free first chunk. -/
theorem splitSep_append_cons (sep : Char) :
    ∀ p rest, sep ∉ p → splitSep sep (p ++ sep :: rest) = p :: splitSep sep rest := by
  intro p
  induction p with
  | nil => intro rest _; simp [splitSep]
  | cons c cs ih =>
    intro rest h
    have hc : ¬ c = sep := fun hcs => h (by simp [hcs])
    have hcs' : sep ∉ cs := fun hm => h (by simp [hm])
    have hih := ih rest hcs'
    simp only [List.cons_append, splitSep, hc, if_false, List.append_eq, hih]

/-- Splitting after joining recovers the parts, provided no part contains the
separator. -/
theorem splitSep_joinSep (sep : Char) :
    ∀ ps : List (List Char), ps ≠ [] → (∀ p ∈ ps, sep ∉ p) →
      splitSep sep (joinSep sep ps) = ps := by
  intro ps
  induction ps with
  | nil => intro h; exact absurd rfl h
  | cons p ps ih =>
    intro _ hmem
    cases ps with
    | nil => exact splitSep_no_sep sep p (hmem p (by simp))
    | cons q qs =>
      have h1 : sep ∉ p := hmem p (by simp)
      have h2 : splitSep sep (joinSep sep (q :: qs)) = q :: qs :=
        ih (by simp) (fun r hr => hmem r (by simp [hr]))
      simp only [joinSep, splitSep_append_cons sep p _ h1, h2]

theorem digitVal_digitChar {n : Nat} (h : n < 10) : digitVal (digitChar n) = n := by
  interval_cases n <;> rfl

theorem isDigit_digitChar {n : Nat} (h : n < 10) : (digitChar n).isDigit = true := by
  interval_cases n <;> rfl

theorem digitsVal_append (l : List Char) (c : Char) :
    digitsVal (l ++ [c]) = digitsVal l * 10 + digitVal c := by
  simp [digitsVal, List.foldl_append]

theorem natDigsAux_spec :
    ∀ fuel n, n < fuel →
      digitsVal (natDigsAux fuel n) = n ∧ (natDigsAux fuel n).all Char.isDigit = true ∧
        natDigsAux fuel n ≠ [] := by
  intro fuel
  induction fuel with
  | zero => intro n h; omega
  | succ fuel ih =>
    intro n h
    by_cases h10 : n < 10
    · refine ⟨?_, ?_, ?_⟩ <;>
        simp [natDigsAux, h10, digitsVal, digitVal_digitChar h10, isDigit_digitChar h10]
    · have hdiv : n / 10 < fuel := by omega
      obtain ⟨hv, hd, _⟩ := ih (n / 10) hdiv
      have hm : n % 10 < 10 := Nat.mod_lt _ (by omega)
      refine ⟨?_, ?_, ?_⟩
      · simp only [natDigsAux, h10, if_false, digitsVal_append, hv, digitVal_digitChar hm]
        omega
      · simp only [natDigsAux, h10, if_false, List.all_append, hd, Bool.true_and, List.all_cons,
          isDigit_digitChar hm, List.all_nil, Bool.and_true]
      · simp [natDigsAux, h10]

theorem digitsVal_natDigs (n : Nat) : digitsVal (natDigs n) = n :=
  (natDigsAux_spec (n + 1) n (by omega)).1

theorem natDigs_all_digits (n : Nat) : (natDigs n).all Char.isDigit = true :=
  (natDigsAux_spec (n + 1) n (by omega)).2.1

theorem natDigs_ne_nil (n : Nat) : natDigs n ≠ [] :=
  (natDigsAux_spec (n + 1) n (by omega)).2.2

theorem natDigsAux_length :
    ∀ fuel n k, n < fuel → n < 10 ^ k → 0 < k → (natDigsAux fuel n).length ≤ k := by
  intro fuel
  induction fuel with
  | zero => intro n k h; omega
  | succ fuel ih =>
    intro n k h hk hk0
    by_cases h10 : n < 10
    · simp only [natDigsAux, h10, if_true, List.length_cons, List.length_nil]
      omega
    · have hk1 : 1 < k := by
        by_contra hc
        have : k = 1 := by omega
        subst this
        simp at hk
        omega
      have hdivk : n / 10 < 10 ^ (k - 1) := by
        have hks : k - 1 + 1 = k := by omega
        have h1 : 10 ^ k = 10 ^ (k - 1) * 10 := by
          conv_lhs => rw [← hks]
          rw [pow_succ]
        rw [Nat.div_lt_iff_lt_mul (by omega)]
        omega
      have := ih (n / 10) (k - 1) (by omega) hdivk (by omega)
      simp only [natDigsAux, h10, if_false, List.length_append, List.length_cons,
        List.length_nil]
      omega

theorem natDigs_length {n k : Nat} (hk : n < 10 ^ k) (hk0 : 0 < k) :
    (natDigs n).length ≤ k :=
  natDigsAux_length (n + 1) n k (by omega) hk hk0

/-- Leading zeros do not change the value of a digit string. -/
theorem digitsVal_replicate_zero (m : Nat) (l : List Char) :
    digitsVal (List.replicate m '0' ++ l) = digitsVal l := by
  induction m with
  | zero => rfl
  | succ m ih =>
    simp only [List.replicate_succ, List.cons_append, digitsVal, List.foldl_cons] at *
    simpa using ih

/-- A file name cannot end in both `.csv` and `.xlsx`. -/
theorem csv_xlsx_exclusive (s : String) :
    pyEndsWith s ".csv" = true → pyEndsWith s ".xlsx" = true → False := by
  intro h1 h2
  rw [pyEndsWith, List.isSuffixOf_iff_suffix] at h1 h2
  rcases List.suffix_or_suffix_of_suffix h1 h2 with h | h
  · exact absurd h (by decide)
  · exact absurd h (by decide)

/-! ## Claim C1

The spec asserts that the cleaner's cell-normalization step leaves missing
cells missing.  The code's `df[col].astype(str).str.strip()` stringifies the
whole column *before* dropping anything, so a missing cell of an object
column becomes the literal string `"nan"`. -/

/-- C1: the cell normalization step does NOT leave missing cells missing: for
the CSV `a,b\nx,1\n,2\n` the parsed table has a missing cell in text column
`a`, and `load_and_clean` returns that cell as the literal string `"nan"`.
This evaluates the code at the failing input of the C1 code bug. -/
theorem C1_missing_cell_turned_into_nan_string :
    parseCsv "a,b\nx,1\n,2\n" =
      .ok ⟨["a", "b"], [Dtype.object, Dtype.int64],
        [[Cell.str "x", Cell.num 1], [Cell.na, Cell.num 2]]⟩
    ∧ load_and_clean "t.csv" (asciiBytes "a,b\nx,1\n,2\n") sheet0 =
      .ok ⟨["a", "b"], [Dtype.object, Dtype.int64],
        [[Cell.str "x", Cell.num 1], [Cell.str "nan", Cell.num 2]]⟩ :=
  ⟨by decide, by decide⟩

/-! ## Claim C2

The spec asserts that every row whose cells are all missing is removed.  The
row filter `df.dropna(how="all")` runs *after* the string-trimming step has
already turned the missing cells of object columns into `"nan"` strings, so
such a row is no longer all-missing and survives. -/

/-- C2: for the CSV `a,b\nx,1\n,\n` the second parsed row is entirely missing,
yet `load_and_clean` retains it (with the text cell polluted to `"nan"`).
This evaluates the code at the failing input of the C2 code bug. -/
theorem C2_all_missing_row_survives :
    parseCsv "a,b\nx,1\n,\n" =
      .ok ⟨["a", "b"], [Dtype.object, Dtype.float64],
        [[Cell.str "x", Cell.num 1], [Cell.na, Cell.na]]⟩
    ∧ load_and_clean "t.csv" (asciiBytes "a,b\nx,1\n,\n") sheet0 =
      .ok ⟨["a", "b"], [Dtype.object, Dtype.float64],
        [[Cell.str "x", Cell.num 1], [Cell.str "nan", Cell.na]]⟩ :=
  ⟨by decide, by decide⟩

/-! ## Claim C7: extension dispatch -/

/-- C7: dispatch on the lower-cased file name: a name ending in neither
`.csv` nor `.xlsx` fails with `UnsupportedFormat` irrespective of the file's
bytes or parsed sheet (no I/O beyond the extension check is consulted); a
name ending in `.csv` (any case) runs the CSV pipeline on the bytes; a name
ending in `.xlsx` (any case) runs the spreadsheet pipeline. -/
theorem C7_extension_dispatch (name : String) (bytes : List Nat)
    (sheet : Except PyError DataFrame) :
    (pyEndsWith (pyLower name) ".csv" = false → pyEndsWith (pyLower name) ".xlsx" = false →
      load_and_clean name bytes sheet = .error .unsupportedFormat)
    ∧ (pyEndsWith (pyLower name) ".csv" = true →
      load_and_clean name bytes sheet = csvPipeline bytes)
    ∧ (pyEndsWith (pyLower name) ".xlsx" = true →
      load_and_clean name bytes sheet = xlsxPipeline sheet) := by
  refine ⟨fun h1 h2 => ?_, fun h1 => ?_, fun h1 => ?_⟩
  · simp [load_and_clean, h1, h2]
  · simp [load_and_clean, h1]
  · have hcsv : pyEndsWith (pyLower name) ".csv" = false := by
      cases hc : pyEndsWith (pyLower name) ".csv" with
      | false => rfl
      | true => exact (csv_xlsx_exclusive _ hc h1).elim
    simp [load_and_clean, hcsv, h1]

/-- C7 witness: a `.PDF` name is rejected without looking at the bytes, while
`.CsV` and `.XLSX` names (mixed case) dispatch to their parsers. -/
theorem C7_extension_dispatch_witness :
    load_and_clean "Report.PDF" (asciiBytes "a\n1\n") sheet0 = .error .unsupportedFormat
    ∧ load_and_clean "DATA.CsV" (asciiBytes "a\n1\n") sheet0 =
        csvPipeline (asciiBytes "a\n1\n")
    ∧ load_and_clean "book.XLSX" [] (.ok ⟨["a"], [Dtype.int64], [[Cell.num 1]]⟩) =
        xlsxPipeline (.ok ⟨["a"], [Dtype.int64], [[Cell.num 1]]⟩) :=
  ⟨(C7_extension_dispatch "Report.PDF" (asciiBytes "a\n1\n") sheet0).1 (by decide) (by decide),
   (C7_extension_dispatch "DATA.CsV" (asciiBytes "a\n1\n") sheet0).2.1 (by decide),
   (C7_extension_dispatch "book.XLSX" [] (.ok ⟨["a"], [Dtype.int64], [[Cell.num 1]]⟩)).2.2
     (by decide)⟩

/-! ## Claim C6: ordered encoding fallback -/

theorem parseCsv_error_eq (s : String) (e : PyError) (h : parseCsv s = .error e) :
    e = .parseFailure := by
  unfold parseCsv at h
  cases hls : (splitSep '\n' s.data).filter (fun l => !l.isEmpty) with
  | nil =>
    rw [hls] at h
    simp at h
    exact h.symm
  | cons header body =>
    rw [hls] at h
    simp only at h
    split at h
    · simp at h
      exact h.symm
    · simp at h

theorem parseCleanCsv_ne_decodeFailure (s : String) :
    parseCleanCsv s ≠ .error .decodeFailure := by
  unfold parseCleanCsv
  cases hp : parseCsv s with
  | ok df =>
    simp only [cleanE]
    split
    · intro hc; cases hc
    · intro hc
      injection hc with hc2
      cases hc2
  | error e =>
    have := parseCsv_error_eq s e hp
    subst this
    intro hc
    injection hc with hc2
    cases hc2

/-- C6: when the bytes are not valid UTF-8, the CSV path of `load_and_clean`
decodes them as Latin-1 (which never fails, so the Windows-1252 stage is never
consulted) and proceeds; in particular the result is never a decode failure,
and whenever the Latin-1 text parses and cleans successfully the load succeeds
with that table. -/
theorem C6_encoding_fallback (name : String) (bytes : List Nat)
    (sheet : Except PyError DataFrame)
    (hcsv : pyEndsWith (pyLower name) ".csv" = true)
    (hutf : utf8Dec bytes = none) :
    load_and_clean name bytes sheet = parseCleanCsv ⟨bytes.map latin1Char⟩
    ∧ load_and_clean name bytes sheet ≠ .error .decodeFailure
    ∧ (∀ df, parseCleanCsv ⟨bytes.map latin1Char⟩ = .ok df →
        load_and_clean name bytes sheet = .ok df) := by
  have h1 : load_and_clean name bytes sheet = parseCleanCsv ⟨bytes.map latin1Char⟩ := by
    simp [load_and_clean, hcsv, csvPipeline, utf8DecStr, hutf, decodeLatin1]
  refine ⟨h1, ?_, fun df hdf => by rw [h1, hdf]⟩
  rw [h1]
  exact parseCleanCsv_ne_decodeFailure _

/-- C6 witness: the Latin-1 file `a,b\nx,ÿ\n` (byte 0xFF is invalid UTF-8)
loads through the fallback. -/
theorem C6_encoding_fallback_witness :
    pyEndsWith (pyLower "t.csv") ".csv" = true
    ∧ utf8Dec [97, 44, 98, 10, 120, 44, 255, 10] = none
    ∧ load_and_clean "t.csv" [97, 44, 98, 10, 120, 44, 255, 10] sheet0 =
        parseCleanCsv ⟨[97, 44, 98, 10, 120, 44, 255, 10].map latin1Char⟩
    ∧ load_and_clean "t.csv" [97, 44, 98, 10, 120, 44, 255, 10] sheet0 ≠
        .error .decodeFailure :=
  ⟨by decide, by decide,
   (C6_encoding_fallback "t.csv" [97, 44, 98, 10, 120, 44, 255, 10] sheet0
     (by decide) (by decide)).1,
   (C6_encoding_fallback "t.csv" [97, 44, 98, 10, 120, 44, 255, 10] sheet0
     (by decide) (by decide)).2.1⟩

theorem dedupSeen_eq_removeDups {α : Type} [DecidableEq α] :
    ∀ (l seen pre : List α), (∀ a, a ∈ seen ↔ a ∈ pre) →
      dedupSeen seen l = removeDupsOfEarlier pre l := by
  intro l
  induction l with
  | nil => intro seen pre _; rfl
  | cons x xs ih =>
    intro seen pre h
    by_cases hx : x ∈ seen
    · rw [dedupSeen, if_pos hx, removeDupsOfEarlier, if_pos ((h x).mp hx)]
      refine ih _ _ (fun a => ?_)
      constructor
      · intro ha; simp [List.mem_append, (h a).mp ha]
      · intro ha
        rcases List.mem_append.mp ha with ha | ha
        · exact (h a).mpr ha
        · simp at ha; subst ha; exact hx
    · rw [dedupSeen, if_neg hx, removeDupsOfEarlier, if_neg (fun hp => hx ((h x).mpr hp))]
      congr 1
      refine ih _ _ (fun a => ?_)
      constructor
      · intro ha
        rcases List.mem_cons.mp ha with ha | ha
        · subst ha; simp [List.mem_append]
        · simp [List.mem_append, (h a).mp ha]
      · intro ha
        rcases List.mem_append.mp ha with ha | ha
        · exact List.mem_cons_of_mem _ ((h a).mpr ha)
        · simp at ha; subst ha; exact List.mem_cons_self _ _

theorem dedupSeen_sublist {α : Type} [DecidableEq α] :
    ∀ (l seen : List α), List.Sublist (dedupSeen seen l) l := by
  intro l
  induction l with
  | nil => intro seen; simp [dedupSeen]
  | cons x xs ih =>
    intro seen
    by_cases hx : x ∈ seen
    · rw [dedupSeen, if_pos hx]; exact (ih seen).cons x
    · rw [dedupSeen, if_neg hx]; exact (ih _).cons₂ x

/-- C5: `drop_duplicates` removes exactly the rows that duplicate an earlier
row (it coincides with the spec-side `removeDupsOfEarlier`), it only deletes
rows (the result is a sublist, so order is preserved and first occurrences are
kept), two rows differing in any cell are both retained, and the rows of every
table `load_and_clean`'s cleaning phase returns are exactly the deduplication
of the rows entering the final stage. -/
theorem C5_drop_duplicates :
    (∀ rows : List (List Cell), drop_duplicates rows = removeDupsOfEarlier [] rows)
    ∧ (∀ rows : List (List Cell), List.Sublist (drop_duplicates rows) rows)
    ∧ (∀ r₁ r₂ : List Cell, r₁ ≠ r₂ → drop_duplicates [r₁, r₂] = [r₁, r₂])
    ∧ (∀ df dfc : DataFrame, cleanE df = .ok dfc →
        dfc.rows =
          drop_duplicates
            (dropAllNaRows (trimCells { df with colNames := df.colNames.map pstrip })).rows) := by
  refine ⟨fun rows => dedupSeen_eq_removeDups rows [] [] (fun a => Iff.rfl),
    fun rows => dedupSeen_sublist rows [], fun r₁ r₂ h => ?_, fun df dfc h => ?_⟩
  · have h2 : ¬ r₂ = r₁ := fun hc => h hc.symm
    simp [drop_duplicates, dedupSeen, h2]
  · unfold cleanE at h
    by_cases hn : (df.colNames.map pstrip).Nodup
    · simp only [if_pos hn] at h
      injection h with h2
      rw [← h2]
      rfl
    · simp only [if_neg hn] at h
      cases h

/-- C5 witness: two rows differing in one cell are both kept; a duplicated row
collapses to its first occurrence while order is otherwise preserved. -/
theorem C5_drop_duplicates_witness :
    drop_duplicates [[Cell.num 1, Cell.na], [Cell.num 1, Cell.num 2]] =
      [[Cell.num 1, Cell.na], [Cell.num 1, Cell.num 2]]
    ∧ drop_duplicates [[Cell.str "b"], [Cell.str "a"], [Cell.str "b"], [Cell.str "c"]] =
        removeDupsOfEarlier [] [[Cell.str "b"], [Cell.str "a"], [Cell.str "b"], [Cell.str "c"]] :=
  ⟨C5_drop_duplicates.2.2.1 [Cell.num 1, Cell.na] [Cell.num 1, Cell.num 2] (by decide),
   C5_drop_duplicates.1 [[Cell.str "b"], [Cell.str "a"], [Cell.str "b"], [Cell.str "c"]]⟩

/-! ## Analyzer plumbing lemmas -/

theorem mapExcept_ok_props {ε α β : Type} (f : α → Except ε β) :
    ∀ (l : List α) (ps : List β), mapExcept f l = .ok ps →
      ps.length = l.length ∧
        ∀ (i : Nat) (da : α) (db : β), i < l.length →
          f (l.getD i da) = .ok (ps.getD i db) := by
  intro l
  induction l with
  | nil =>
    intro ps h
    have hps : ps = [] := by
      unfold mapExcept at h
      injection h with h2
      exact h2.symm
    subst hps
    exact ⟨rfl, fun i da db hi => by simp at hi⟩
  | cons x xs ih =>
    intro ps h
    unfold mapExcept at h
    cases hfx : f x with
    | error e => rw [hfx] at h; cases h
    | ok b =>
      rw [hfx] at h
      cases hrec : mapExcept f xs with
      | error e => rw [hrec] at h; cases h
      | ok bs =>
        rw [hrec] at h
        injection h with h2
        subst h2
        obtain ⟨hl, hp⟩ := ih bs hrec
        refine ⟨by simp [hl], ?_⟩
        intro i da db hi
        cases i with
        | zero => simpa using hfx
        | succ i => simpa using hp i da db (by simpa using hi)

theorem mapExcept_ok_of_forall {ε α β : Type} (f : α → Except ε β) :
    ∀ l : List α, (∀ x ∈ l, ∃ b, f x = .ok b) → ∃ ps, mapExcept f l = .ok ps := by
  intro l
  induction l with
  | nil => intro _; exact ⟨[], rfl⟩
  | cons x xs ih =>
    intro h
    obtain ⟨b, hb⟩ := h x (by simp)
    obtain ⟨ps, hps⟩ := ih (fun y hy => h y (by simp [hy]))
    refine ⟨b :: ps, ?_⟩
    unfold mapExcept
    rw [hb, hps]

theorem filter_range_singleton : ∀ (n i : Nat), i < n →
    (List.range n).filter (fun j => decide (j = i)) = [i] := by
  intro n
  induction n with
  | zero => intro i h; omega
  | succ n ih =>
    intro i h
    rw [List.range_succ, List.filter_append]
    by_cases hi : i < n
    · rw [ih i hi]
      have hn : (List.filter (fun j => decide (j = i)) [n]) = [] := by
        simp
        omega
      rw [hn, List.append_nil]
    · have hin : i = n := by omega
      subst hin
      have h1 : (List.range i).filter (fun j => decide (j = i)) = [] := by
        rw [List.filter_eq_nil_iff]
        intro a ha
        simp [List.mem_range] at ha ⊢
        omega
      rw [h1]
      simp

/-- If the analyzer succeeds, the `j`-th profile is the profile of column `j`
(the label lookup found exactly one matching column, and it is column `j`). -/
theorem analyze_ok_getD (df : DataFrame) (ps : List ColumnProfile) (j : Nat)
    (hok : analyze_dataframe df = .ok ps) (hj : j < df.colNames.length) :
    ps.getD j defaultProfile =
      profileCol (df.colNames.getD j "") (df.dtypes.getD j Dtype.object) (colCells df j) := by
  obtain ⟨hlen, hpt⟩ := mapExcept_ok_props _ _ _ hok
  have hf := hpt j "" defaultProfile hj
  simp only at hf
  have hjmem : j ∈ (List.range df.colNames.length).filter
      (fun k => decide (df.colNames.getD k "" = df.colNames.getD j "")) := by
    simp [List.mem_filter, List.mem_range, hj]
  cases hjs : (List.range df.colNames.length).filter
      (fun k => decide (df.colNames.getD k "" = df.colNames.getD j "")) with
  | nil => rw [hjs] at hjmem; cases hjmem
  | cons j' rest =>
    cases rest with
    | nil =>
      rw [hjs] at hjmem
      have hjj : j = j' := by simpa using hjmem
      subst hjj
      rw [hjs] at hf
      simp only at hf
      injection hf with hf2
      exact hf2.symm
    | cons j'' rest2 =>
      rw [hjs] at hf
      simp only at hf
      cases hf

theorem analyze_ok_length (df : DataFrame) (ps : List ColumnProfile)
    (hok : analyze_dataframe df = .ok ps) : ps.length = df.colNames.length :=
  (mapExcept_ok_props _ _ _ hok).1

/-- With pairwise-distinct column names the analyzer always succeeds. -/
theorem analyze_ok_of_nodup (df : DataFrame) (hn : df.colNames.Nodup) :
    ∃ ps, analyze_dataframe df = .ok ps := by
  apply mapExcept_ok_of_forall
  intro nm hm
  obtain ⟨i, hi, hie⟩ := List.getElem_of_mem hm
  have hie' : df.colNames.getD i "" = nm := by
    rw [List.getD_eq_getElem?_getD, List.getElem?_eq_getElem hi]
    simpa using hie
  have hcongr : ∀ k ∈ List.range df.colNames.length,
      decide (df.colNames.getD k "" = nm) = decide (k = i) := by
    intro k hk
    simp only [List.mem_range] at hk
    by_cases hki : k = i
    · subst hki
      rw [hie']
      simp
    · have hne : df.colNames.getD k "" ≠ nm := by
        rw [← hie']
        intro hc
        apply hki
        rw [List.getD_eq_getElem?_getD, List.getElem?_eq_getElem hk] at hc
        rw [List.getD_eq_getElem?_getD, List.getElem?_eq_getElem hi] at hc
        simp at hc
        exact (hn.getElem_inj_iff).mp hc
      rw [decide_eq_false hne, decide_eq_false hki]
  rw [List.filter_congr hcongr, filter_range_singleton _ i hi]
  exact ⟨_, rfl⟩

theorem profileCol_column (nm : String) (dt : Dtype) (cells : List Cell) :
    (profileCol nm dt cells).column = nm := by
  dsimp only [profileCol]
  split <;> rfl

theorem profileCol_dtype (nm : String) (dt : Dtype) (cells : List Cell) :
    (profileCol nm dt cells).dtype = dt := by
  dsimp only [profileCol]
  split <;> rfl

theorem profileCol_missing (nm : String) (dt : Dtype) (cells : List Cell) :
    (profileCol nm dt cells).missing = cells.countP (fun c => decide (c = Cell.na)) := by
  dsimp only [profileCol]
  split <;> rfl

/-! ## Claim C3: numeric column with zero non-missing values -/

/-- C3: when the analyzer succeeds, a numeric-dtype column all of whose cells
are missing is profiled with `min`, `max` and `mean` all absent (`none`) — not
zero — while its `missing` count is still the full column length. -/
theorem C3_empty_numeric_column_stats (df : DataFrame) (ps : List ColumnProfile) (j : Nat)
    (hok : analyze_dataframe df = .ok ps) (hj : j < df.colNames.length)
    (hnum : isNumericDtype (df.dtypes.getD j Dtype.object) = true)
    (hna : ∀ c ∈ colCells df j, c = Cell.na) :
    (ps.getD j defaultProfile).stats = Stats.numeric none none none
    ∧ (ps.getD j defaultProfile).missing = (colCells df j).length := by
  rw [analyze_ok_getD df ps j hok hj]
  constructor
  · dsimp only [profileCol]
    rw [if_pos hnum]
    have hnn : (colCells df j).filterMap cellNum = [] := by
      rw [List.filterMap_eq_nil_iff]
      intro c hc
      rw [hna c hc]
      rfl
    rw [hnn]
    rfl
  · rw [profileCol_missing]
    rw [List.countP_eq_length]
    intro c hc
    rw [hna c hc]
    rfl

/-- C3 witness: a two-row float64 column of missing cells reports
`min = max = mean = none` and `missing = 2`. -/
theorem C3_empty_numeric_column_stats_witness :
    analyze_dataframe ⟨["a", "b"], [Dtype.float64, Dtype.int64],
        [[Cell.na, Cell.num 7], [Cell.na, Cell.num 8]]⟩ =
      .ok [⟨"a", Dtype.float64, 2, Stats.numeric none none none⟩,
           ⟨"b", Dtype.int64, 0, Stats.numeric (some 7) (some 8) (some (15 / 2))⟩]
    ∧ (([⟨"a", Dtype.float64, 2, Stats.numeric none none none⟩,
         ⟨"b", Dtype.int64, 0,
           Stats.numeric (some 7) (some 8) (some (15 / 2))⟩] : List ColumnProfile).getD 0
            defaultProfile).stats = Stats.numeric none none none :=
  ⟨by with_unfolding_all rfl,
   (C3_empty_numeric_column_stats
      ⟨["a", "b"], [Dtype.float64, Dtype.int64], [[Cell.na, Cell.num 7], [Cell.na, Cell.num 8]]⟩
      _ 0 (by with_unfolding_all rfl) (by decide) (by decide) (by decide)).1⟩

/-! ## Claim C8: the analyzer is total on loader output -/

theorem cleanE_ok_facts (df dfc : DataFrame) (h : cleanE df = .ok dfc) :
    dfc.colNames = df.colNames.map pstrip ∧ dfc.colNames.Nodup := by
  unfold cleanE at h
  by_cases hn : (df.colNames.map pstrip).Nodup
  · simp only [if_pos hn] at h
    injection h with h2
    rw [← h2]
    exact ⟨rfl, hn⟩
  · simp only [if_neg hn] at h
    cases h

theorem load_ok_cleanE (name : String) (bytes : List Nat) (sheet : Except PyError DataFrame)
    (df : DataFrame) (h : load_and_clean name bytes sheet = .ok df) :
    ∃ df0, cleanE df0 = .ok df := by
  unfold load_and_clean at h
  by_cases hcsv : pyEndsWith (pyLower name) ".csv" = true
  · simp only [hcsv, if_true] at h
    unfold csvPipeline at h
    have hp : ∀ s : String, parseCleanCsv s = .ok df → ∃ df0, cleanE df0 = .ok df := by
      intro s hs
      unfold parseCleanCsv at hs
      cases hps : parseCsv s with
      | ok df0 => rw [hps] at hs; exact ⟨df0, hs⟩
      | error e => rw [hps] at hs; cases hs
    cases hu : utf8DecStr bytes with
    | some s => rw [hu] at h; exact hp s h
    | none =>
      rw [hu] at h
      simp only [decodeLatin1] at h
      exact hp _ h
  · simp only [hcsv, if_false] at h
    by_cases hx : pyEndsWith (pyLower name) ".xlsx" = true
    · simp only [hx, if_true] at h
      unfold xlsxPipeline at h
      cases hs : sheet with
      | ok df0 => rw [hs] at h; exact ⟨df0, h⟩
      | error e => rw [hs] at h; cases h
    · simp only [hx, if_false] at h
      cases h

theorem load_ok_nodup (name : String) (bytes : List Nat) (sheet : Except PyError DataFrame)
    (df : DataFrame) (h : load_and_clean name bytes sheet = .ok df) : df.colNames.Nodup := by
  obtain ⟨df0, h0⟩ := load_ok_cleanE name bytes sheet df h
  exact (cleanE_ok_facts df0 df h0).2

/-- C8: on every table `load_and_clean` returns (it enforces distinct stripped
column names, failing otherwise), `analyze_dataframe` succeeds and returns one
profile per column, in column order, each carrying the column's name and its
count of missing cells. -/
theorem C8_analyzer_total_on_loader_output (name : String) (bytes : List Nat)
    (sheet : Except PyError DataFrame) (df : DataFrame)
    (hload : load_and_clean name bytes sheet = .ok df) :
    ∃ ps, analyze_dataframe df = .ok ps
      ∧ ps.length = df.colNames.length
      ∧ ∀ j, j < df.colNames.length →
          (ps.getD j defaultProfile).column = df.colNames.getD j ""
          ∧ (ps.getD j defaultProfile).missing =
              (colCells df j).countP (fun c => decide (c = Cell.na)) := by
  obtain ⟨ps, hps⟩ := analyze_ok_of_nodup df (load_ok_nodup name bytes sheet df hload)
  refine ⟨ps, hps, analyze_ok_length df ps hps, fun j hj => ?_⟩
  rw [analyze_ok_getD df ps j hps hj]
  exact ⟨profileCol_column _ _ _, profileCol_missing _ _ _⟩

/-- C8 witness: a loaded CSV (with a missing cell and a duplicate row) is
analyzed without failure, one profile per column with correct missing counts. -/
theorem C8_analyzer_total_on_loader_output_witness :
    load_and_clean "u.csv" (asciiBytes "p,q\n1,a\n1,a\n,\n") sheet0 =
      .ok ⟨["p", "q"], [Dtype.float64, Dtype.object],
        [[Cell.num 1, Cell.str "a"], [Cell.na, Cell.str "nan"]]⟩
    ∧ ∃ ps,
        analyze_dataframe
          ⟨["p", "q"], [Dtype.float64, Dtype.object],
            [[Cell.num 1, Cell.str "a"], [Cell.na, Cell.str "nan"]]⟩ = .ok ps
        ∧ ps.length = 2
        ∧ ∀ j, j < (["p", "q"] : List String).length →
            (ps.getD j defaultProfile).column = (["p", "q"] : List String).getD j ""
            ∧ (ps.getD j defaultProfile).missing =
                (colCells
                  ⟨["p", "q"], [Dtype.float64, Dtype.object],
                    [[Cell.num 1, Cell.str "a"], [Cell.na, Cell.str "nan"]]⟩ j).countP
                  (fun c => decide (c = Cell.na)) :=
  ⟨by decide,
   C8_analyzer_total_on_loader_output "u.csv" (asciiBytes "p,q\n1,a\n1,a\n,\n") sheet0
     ⟨["p", "q"], [Dtype.float64, Dtype.object],
       [[Cell.num 1, Cell.str "a"], [Cell.na, Cell.str "nan"]]⟩ (by decide)⟩

/-! ## Claim C10: boolean columns are numeric for the analyzer -/

theorem zipTrim_getD :
    ∀ (ds : List Dtype) (r : List Cell) (j : Nat),
      ds.getD j Dtype.object = Dtype.boolean →
      (List.zipWith
          (fun dt c => if dt = Dtype.object then Cell.str (pstrip (pyStr c)) else c) ds r).getD j
          Cell.na
        = r.getD j Cell.na := by
  intro ds
  induction ds with
  | nil =>
    intro r j h
    simp at h
  | cons d ds ih =>
    intro r j h
    cases r with
    | nil => simp
    | cons c r' =>
      cases j with
      | zero =>
        have hd : d = Dtype.boolean := by simpa using h
        subst hd
        simp
      | succ j =>
        simp only [List.zipWith_cons_cons, List.getD_cons_succ]
        exact ih r' j (by simpa using h)

/-- C10: a boolean-dtype column is skipped by the cleaner's string-trimming
step (it only rewrites object columns), and — since `is_numeric_dtype` holds
for bool — the analyzer profiles it through the numeric branch, reporting
min/max/mean (over the 1/0 values of its booleans) instead of `top_values`. -/
theorem C10_bool_column_is_numeric :
    (∀ (df : DataFrame) (j : Nat), df.dtypes.getD j Dtype.object = Dtype.boolean →
        colCells (trimCells df) j = colCells df j)
    ∧ (∀ (df : DataFrame) (ps : List ColumnProfile) (j : Nat),
        analyze_dataframe df = .ok ps → j < df.colNames.length →
        df.dtypes.getD j Dtype.object = Dtype.boolean →
        kindOf (ps.getD j defaultProfile).stats = "numeric"
        ∧ (ps.getD j defaultProfile).stats =
            Stats.numeric (listMin ((colCells df j).filterMap cellNum))
              (listMax ((colCells df j).filterMap cellNum))
              (listMean ((colCells df j).filterMap cellNum))) := by
  constructor
  · intro df j h
    unfold colCells trimCells
    simp only
    rw [List.map_map]
    apply List.map_congr_left
    intro r _
    exact zipTrim_getD df.dtypes r j h
  · intro df ps j hok hj hb
    rw [analyze_ok_getD df ps j hok hj]
    have hnum : isNumericDtype (df.dtypes.getD j Dtype.object) = true := by
      rw [hb]
      rfl
    constructor
    · dsimp only [profileCol]
      rw [if_pos hnum]
      rfl
    · dsimp only [profileCol]
      rw [if_pos hnum]

/-- C10 witness: a `[True, False, True]` column keeps its cells through the
trimming step and is profiled as numeric with `min 0`, `max 1`, `mean 2/3`. -/
theorem C10_bool_column_is_numeric_witness :
    colCells (trimCells ⟨["flag"], [Dtype.boolean],
        [[Cell.bool true], [Cell.bool false], [Cell.bool true]]⟩) 0 =
      colCells ⟨["flag"], [Dtype.boolean],
        [[Cell.bool true], [Cell.bool false], [Cell.bool true]]⟩ 0
    ∧ kindOf (([⟨"flag", Dtype.boolean, 0,
          Stats.numeric (some 0) (some 1) (some (2 / 3))⟩] : List ColumnProfile).getD 0
            defaultProfile).stats = "numeric"
    ∧ (([⟨"flag", Dtype.boolean, 0,
          Stats.numeric (some 0) (some 1) (some (2 / 3))⟩] : List ColumnProfile).getD 0
            defaultProfile).stats = Stats.numeric (some 0) (some 1) (some (2 / 3)) := by
  have h := C10_bool_column_is_numeric.2
    ⟨["flag"], [Dtype.boolean], [[Cell.bool true], [Cell.bool false], [Cell.bool true]]⟩
    [⟨"flag", Dtype.boolean, 0, Stats.numeric (some 0) (some 1) (some (2 / 3))⟩]
    0 (by with_unfolding_all rfl) (by decide) (by decide)
  refine ⟨C10_bool_column_is_numeric.1
    ⟨["flag"], [Dtype.boolean], [[Cell.bool true], [Cell.bool false], [Cell.bool true]]⟩
    0 (by decide), h.1, ?_⟩
  rw [h.2]
  with_unfolding_all rfl

/-! ## Claim C4: top values of a text column -/

theorem dedupSeen_not_mem_seen {α : Type} [DecidableEq α] :
    ∀ (l seen : List α) (a : α), a ∈ dedupSeen seen l → a ∉ seen := by
  intro l
  induction l with
  | nil => intro seen a h; cases h
  | cons x xs ih =>
    intro seen a h
    by_cases hx : x ∈ seen
    · rw [dedupSeen, if_pos hx] at h
      exact ih seen a h
    · rw [dedupSeen, if_neg hx] at h
      rcases List.mem_cons.mp h with h | h
      · subst h; exact hx
      · intro hs
        exact ih (x :: seen) a h (List.mem_cons_of_mem _ hs)

theorem dedupSeen_nodup {α : Type} [DecidableEq α] :
    ∀ (l seen : List α), (dedupSeen seen l).Nodup := by
  intro l
  induction l with
  | nil => intro seen; simp [dedupSeen]
  | cons x xs ih =>
    intro seen
    by_cases hx : x ∈ seen
    · rw [dedupSeen, if_pos hx]; exact ih seen
    · rw [dedupSeen, if_neg hx]
      refine List.nodup_cons.mpr ⟨fun hc => ?_, ih (x :: seen)⟩
      exact dedupSeen_not_mem_seen xs (x :: seen) x hc (List.mem_cons_self _ _)

theorem firstIdx_inj {α : Type} [DecidableEq α] :
    ∀ (l : List α) (v w : α), v ∈ l → w ∈ l → firstIdx l v = firstIdx l w → v = w := by
  intro l
  induction l with
  | nil => intro v w hv _ _; cases hv
  | cons x xs ih =>
    intro v w hv hw he
    by_cases hxv : x = v
    · by_cases hxw : x = w
      · rw [← hxv, ← hxw]
      · rw [firstIdx, if_pos hxv, firstIdx, if_neg hxw] at he
        omega
    · by_cases hxw : x = w
      · rw [firstIdx, if_neg hxv, firstIdx, if_pos hxw] at he
        omega
      · rw [firstIdx, if_neg hxv, firstIdx, if_neg hxw] at he
        have hv' : v ∈ xs := by
          rcases List.mem_cons.mp hv with h | h
          · exact absurd h.symm hxv
          · exact h
        have hw' : w ∈ xs := by
          rcases List.mem_cons.mp hw with h | h
          · exact absurd h.symm hxw
          · exact h
        exact ih v w hv' hw' (by omega)

/-- The structural properties of `value_counts().head(5)` claimed by the spec:
at most five entries; counts weakly decreasing; ties in order of first
appearance; every entry a genuine (value, count) pair of the input; empty
input gives the empty list. -/
theorem topValues_spec (l : List String) :
    (topValues l).length ≤ 5
    ∧ List.Pairwise (fun a b : String × Nat => b.2 ≤ a.2) (topValues l)
    ∧ List.Pairwise
        (fun a b : String × Nat => a.2 = b.2 → firstIdx l a.1 < firstIdx l b.1) (topValues l)
    ∧ (∀ p ∈ topValues l, p.1 ∈ l ∧ p.2 = countOcc l p.1)
    ∧ (l = [] → topValues l = []) := by
  have hks : (drop_duplicates l).Nodup := dedupSeen_nodup l []
  have hkmem : ∀ v ∈ drop_duplicates l, v ∈ l :=
    fun v hv => (dedupSeen_sublist l []).mem hv
  set triples := (drop_duplicates l).map (fun v => (v, countOcc l v, firstIdx l v)) with htr
  have htinv : ∀ t ∈ triples, t.2.1 = countOcc l t.1 ∧ t.2.2 = firstIdx l t.1 ∧ t.1 ∈ l := by
    intro t ht
    rw [htr] at ht
    obtain ⟨v, hv, rfl⟩ := List.mem_map.mp ht
    exact ⟨rfl, rfl, hkmem v hv⟩
  have htne : List.Pairwise (fun t u : String × Nat × Nat => t.1 ≠ u.1) triples := by
    rw [htr]
    exact (List.pairwise_map).mpr (hks.imp (fun h => h))
  set sorted := List.insertionSort vcRel triples with hsorted
  have hsort : List.Sorted vcRel sorted := List.sorted_insertionSort vcRel triples
  have hperm : List.Perm sorted triples := List.perm_insertionSort vcRel triples
  have hsmem : ∀ t ∈ sorted, t.2.1 = countOcc l t.1 ∧ t.2.2 = firstIdx l t.1 ∧ t.1 ∈ l :=
    fun t ht => htinv t (hperm.mem_iff.mp ht)
  have hsne : List.Pairwise (fun t u : String × Nat × Nat => t.1 ≠ u.1) sorted :=
    (hperm.pairwise_iff (fun h => h.symm)).mpr htne
  have hstrong : List.Pairwise
      (fun t u : String × Nat × Nat =>
        u.2.1 ≤ t.2.1 ∧ (t.2.1 = u.2.1 → firstIdx l t.1 < firstIdx l u.1)) sorted := by
    have hand := (hsort.and hsne)
    refine hand.imp_of_mem (fun ha hb hab => ?_)
    obtain ⟨hrel, hne⟩ := hab
    obtain ⟨hca, hia, hma⟩ := hsmem _ ha
    obtain ⟨hcb, hib, hmb⟩ := hsmem _ hb
    rcases hrel with hlt | ⟨heq, hle⟩
    · exact ⟨Nat.le_of_lt hlt, fun hc => absurd hc (by omega)⟩
    · refine ⟨Nat.le_of_eq heq.symm, fun _ => ?_⟩
      rw [hia, hib] at hle
      rcases Nat.lt_or_ge (firstIdx l _ ) (firstIdx l _) with h | h
      · exact h
      · have : firstIdx l _ = firstIdx l _ := Nat.le_antisymm hle h
        exact absurd (firstIdx_inj l _ _ hma hmb this) hne
  have htops : topValues l = ((sorted.map (fun t => (t.1, t.2.1))).take 5) := by
    rw [topValues, valueCounts]
  have hproj : List.Pairwise
      (fun a b : String × Nat => b.2 ≤ a.2 ∧ (a.2 = b.2 → firstIdx l a.1 < firstIdx l b.1))
      (sorted.map (fun t => (t.1, t.2.1))) := by
    exact (List.pairwise_map).mpr (hstrong.imp (fun h => h))
  have htake := hproj.sublist (List.take_sublist 5 _)
  rw [htops]
  refine ⟨?_, ?_, ?_, ?_, ?_⟩
  · exact List.length_take_le 5 _
  · exact htake.imp (fun h => h.1)
  · exact htake.imp (fun h => h.2)
  · intro p hp
    have hp' := List.mem_of_mem_take hp
    obtain ⟨t, ht, rfl⟩ := List.mem_map.mp hp'
    obtain ⟨hc, _, hm⟩ := hsmem t ht
    exact ⟨hm, hc⟩
  · intro hl
    subst hl
    rfl

/-- C4: when the analyzer succeeds, each non-numeric (text) column's profile
carries `top_values` (the head of `value_counts` on the stringified non-missing
cells) with at most 5 entries, counts weakly decreasing, ties ordered by first
occurrence of the value in the column, every entry a genuine (value, count)
pair, and the empty list when the column has no non-missing value. -/
theorem C4_text_top_values (df : DataFrame) (ps : List ColumnProfile) (j : Nat)
    (hok : analyze_dataframe df = .ok ps) (hj : j < df.colNames.length)
    (htext : isNumericDtype (df.dtypes.getD j Dtype.object) = false) :
    ∃ tops,
      (ps.getD j defaultProfile).stats = Stats.text tops
      ∧ tops =
          topValues ((colCells df j).filterMap
            (fun c => if c = Cell.na then none else some (pyStr c)))
      ∧ tops.length ≤ 5
      ∧ List.Pairwise (fun a b : String × Nat => b.2 ≤ a.2) tops
      ∧ List.Pairwise
          (fun a b : String × Nat => a.2 = b.2 →
            firstIdx ((colCells df j).filterMap
              (fun c => if c = Cell.na then none else some (pyStr c))) a.1 <
            firstIdx ((colCells df j).filterMap
              (fun c => if c = Cell.na then none else some (pyStr c))) b.1) tops
      ∧ (∀ p ∈ tops,
          p.1 ∈ (colCells df j).filterMap
            (fun c => if c = Cell.na then none else some (pyStr c))
          ∧ p.2 = countOcc ((colCells df j).filterMap
              (fun c => if c = Cell.na then none else some (pyStr c))) p.1)
      ∧ ((colCells df j).filterMap (fun c => if c = Cell.na then none else some (pyStr c)) = []
          → tops = []) := by
  rw [analyze_ok_getD df ps j hok hj]
  refine ⟨topValues ((colCells df j).filterMap
    (fun c => if c = Cell.na then none else some (pyStr c))), ?_, rfl, ?_⟩
  · dsimp only [profileCol]
    rw [if_neg (by rw [htext]; intro hc; cases hc)]
  · obtain ⟨h1, h2, h3, h4, h5⟩ := topValues_spec
      ((colCells df j).filterMap (fun c => if c = Cell.na then none else some (pyStr c)))
    exact ⟨h1, h2, h3, h4, h5⟩

/-- C4 witness: the column `[b, a, a, c, b, d, e, f, a]` yields the top five
`[(a,3), (b,2), (c,1), (d,1), (e,1)]` — equal counts in first-appearance
order, truncated to five. -/
theorem C4_text_top_values_witness :
    (∃ tops,
      (([⟨"t", Dtype.object, 0,
          Stats.text [("a", 3), ("b", 2), ("c", 1), ("d", 1), ("e", 1)]⟩] :
            List ColumnProfile).getD 0 defaultProfile).stats = Stats.text tops
      ∧ tops =
          topValues ((colCells ⟨["t"], [Dtype.object],
              [[Cell.str "b"], [Cell.str "a"], [Cell.str "a"], [Cell.str "c"], [Cell.str "b"],
               [Cell.str "d"], [Cell.str "e"], [Cell.str "f"], [Cell.str "a"]]⟩ 0).filterMap
            (fun c => if c = Cell.na then none else some (pyStr c)))
      ∧ tops.length ≤ 5
      ∧ List.Pairwise (fun a b : String × Nat => b.2 ≤ a.2) tops
      ∧ List.Pairwise
          (fun a b : String × Nat => a.2 = b.2 →
            firstIdx ((colCells ⟨["t"], [Dtype.object],
                [[Cell.str "b"], [Cell.str "a"], [Cell.str "a"], [Cell.str "c"], [Cell.str "b"],
                 [Cell.str "d"], [Cell.str "e"], [Cell.str "f"], [Cell.str "a"]]⟩ 0).filterMap
              (fun c => if c = Cell.na then none else some (pyStr c))) a.1 <
            firstIdx ((colCells ⟨["t"], [Dtype.object],
                [[Cell.str "b"], [Cell.str "a"], [Cell.str "a"], [Cell.str "c"], [Cell.str "b"],
                 [Cell.str "d"], [Cell.str "e"], [Cell.str "f"], [Cell.str "a"]]⟩ 0).filterMap
              (fun c => if c = Cell.na then none else some (pyStr c))) b.1) tops
      ∧ (∀ p ∈ tops,
          p.1 ∈ ((colCells ⟨["t"], [Dtype.object],
              [[Cell.str "b"], [Cell.str "a"], [Cell.str "a"], [Cell.str "c"], [Cell.str "b"],
               [Cell.str "d"], [Cell.str "e"], [Cell.str "f"], [Cell.str "a"]]⟩ 0).filterMap
            (fun c => if c = Cell.na then none else some (pyStr c)))
          ∧ p.2 = countOcc ((colCells ⟨["t"], [Dtype.object],
              [[Cell.str "b"], [Cell.str "a"], [Cell.str "a"], [Cell.str "c"], [Cell.str "b"],
               [Cell.str "d"], [Cell.str "e"], [Cell.str "f"], [Cell.str "a"]]⟩ 0).filterMap
              (fun c => if c = Cell.na then none else some (pyStr c))) p.1)
      ∧ (((colCells ⟨["t"], [Dtype.object],
            [[Cell.str "b"], [Cell.str "a"], [Cell.str "a"], [Cell.str "c"], [Cell.str "b"],
             [Cell.str "d"], [Cell.str "e"], [Cell.str "f"], [Cell.str "a"]]⟩ 0).filterMap
            (fun c => if c = Cell.na then none else some (pyStr c))) = [] → tops = []))
    ∧ topValues ["b", "a", "a", "c", "b", "d", "e", "f", "a"] =
        [("a", 3), ("b", 2), ("c", 1), ("d", 1), ("e", 1)] :=
  ⟨C4_text_top_values
      ⟨["t"], [Dtype.object],
        [[Cell.str "b"], [Cell.str "a"], [Cell.str "a"], [Cell.str "c"], [Cell.str "b"],
         [Cell.str "d"], [Cell.str "e"], [Cell.str "f"], [Cell.str "a"]]⟩
      [⟨"t", Dtype.object, 0, Stats.text [("a", 3), ("b", 2), ("c", 1), ("d", 1), ("e", 1)]⟩]
      0 (by decide) (by decide) (by decide),
   by decide⟩

/-! ## Numeric printing / parsing round trips (for C9) -/

theorem wsChar_eq_false_of_isDigit (c : Char) (h : c.isDigit = true) : wsChar c = false := by
  cases hw : wsChar c with
  | false => rfl
  | true =>
    exfalso
    unfold wsChar at hw
    simp only [Bool.or_eq_true, decide_eq_true_eq] at hw
    rcases hw with ((((h1 | h1) | h1) | h1) | h1) | h1 <;> (subst h1; exact absurd h (by decide))

theorem not_mem_natDigs (d : Char) (hd : d.isDigit = false) (n : Nat) : d ∉ natDigs n := by
  intro hm
  have hall := natDigs_all_digits n
  rw [List.all_eq_true] at hall
  have := hall d hm
  rw [this] at hd
  cases hd

theorem dropWhile_eq_self_of_head {p : Char → Bool} {l : List Char}
    (h : ∀ c ∈ l, p c = false) : l.dropWhile p = l := by
  cases l with
  | nil => rfl
  | cons x xs =>
    rw [List.dropWhile_cons, h x (List.mem_cons_self x xs)]
    simp

theorem stripChars_eq_self {l : List Char} (h : ∀ c ∈ l, wsChar c = false) :
    stripChars l = l := by
  unfold stripChars trimLeft trimRight
  rw [dropWhile_eq_self_of_head h]
  rw [dropWhile_eq_self_of_head (fun c hc => h c (List.mem_reverse.mp hc))]
  exact List.reverse_reverse l

theorem parseNatDigits_natDigs (n : Nat) : parseNatDigits (natDigs n) = some n := by
  unfold parseNatDigits
  rw [if_neg (by simpa using natDigs_ne_nil n), if_pos (natDigs_all_digits n),
    digitsVal_natDigs]

theorem natDigs_head_digit (n : Nat) :
    ∃ d rest, natDigs n = d :: rest ∧ d.isDigit = true := by
  cases hd : natDigs n with
  | nil => exact absurd hd (natDigs_ne_nil n)
  | cons d rest =>
    refine ⟨d, rest, rfl, ?_⟩
    have hall := natDigs_all_digits n
    rw [hd] at hall
    rw [List.all_eq_true] at hall
    exact hall d (List.mem_cons_self d rest)

/-- `int(...)` printing round-trips through the integer field parser. -/
theorem parseIntField_intRepr (n : ℤ) : parseIntField (intRepr n) = some n := by
  have hdigits : ∀ c ∈ natDigs n.natAbs, wsChar c = false := by
    intro c hc
    have hall := natDigs_all_digits n.natAbs
    rw [List.all_eq_true] at hall
    exact wsChar_eq_false_of_isDigit c (hall c hc)
  obtain ⟨d, rest, hd, hdig⟩ := natDigs_head_digit n.natAbs
  unfold parseIntField intRepr
  by_cases hn : n < 0
  · rw [if_pos hn]
    simp only [List.cons_append, List.nil_append]
    have hstrip : stripChars ((⟨'-' :: natDigs n.natAbs⟩ : String).data) =
        '-' :: natDigs n.natAbs := by
      apply stripChars_eq_self
      intro c hc
      rcases List.mem_cons.mp hc with h | h
      · subst h; rfl
      · exact hdigits c h
    rw [hstrip]
    unfold parseIntChars
    rw [if_pos (by simp)]
    simp only [List.tail_cons]
    rw [parseNatDigits_natDigs]
    have hval : -((n.natAbs : ℤ)) = n := by omega
    conv_rhs => rw [← hval]
    rfl
  · rw [if_neg hn]
    simp only [List.nil_append]
    have hstrip : stripChars ((⟨natDigs n.natAbs⟩ : String).data) = natDigs n.natAbs :=
      stripChars_eq_self hdigits
    rw [hstrip]
    unfold parseIntChars
    rw [hd]
    have hd1 : (d :: rest).head? ≠ some '-' := by
      intro hc
      simp at hc
      subst hc
      exact absurd hdig (by decide)
    have hd2 : (d :: rest).head? ≠ some '+' := by
      intro hc
      simp at hc
      subst hc
      exact absurd hdig (by decide)
    rw [if_neg hd1, if_neg hd2, ← hd, parseNatDigits_natDigs]
    have hval : ((n.natAbs : ℤ)) = n := by omega
    conv_rhs => rw [← hval]
    rfl

theorem stripPAux_spec (p : Nat) (hp : 2 ≤ p) :
    ∀ (fuel n : Nat), 0 < n → n ≤ fuel →
      n = p ^ (stripPAux p fuel n).1 * (stripPAux p fuel n).2
      ∧ ¬ p ∣ (stripPAux p fuel n).2
      ∧ 0 < (stripPAux p fuel n).2 := by
  intro fuel
  induction fuel with
  | zero => intro n h0 hle; omega
  | succ fuel ih =>
    intro n h0 hle
    by_cases hc : 2 ≤ p ∧ 0 < n ∧ n % p = 0
    · have hdvd : p ∣ n := Nat.dvd_of_mod_eq_zero hc.2.2
      have hlt : n / p < n := Nat.div_lt_self h0 (by omega)
      have h0' : 0 < n / p := Nat.div_pos (Nat.le_of_dvd h0 hdvd) (by omega)
      obtain ⟨h1, h2, h3⟩ := ih (n / p) h0' (by omega)
      rw [stripPAux, if_pos hc]
      refine ⟨?_, h2, h3⟩
      calc n = p * (n / p) := (Nat.mul_div_cancel' hdvd).symm
        _ = p * (p ^ (stripPAux p fuel (n / p)).1 * (stripPAux p fuel (n / p)).2) := by
            rw [← h1]
        _ = p ^ ((stripPAux p fuel (n / p)).1 + 1) * (stripPAux p fuel (n / p)).2 := by
            ring
    · rw [stripPAux, if_neg hc]
      refine ⟨by simp, ?_, h0⟩
      intro hdvd
      exact hc ⟨hp, h0, Nat.mod_eq_zero_of_dvd hdvd⟩

theorem stripP_spec (p n : Nat) (hp : 2 ≤ p) (h0 : 0 < n) :
    n = p ^ (stripP p n).1 * (stripP p n).2 ∧ ¬ p ∣ (stripP p n).2 ∧ 0 < (stripP p n).2 :=
  stripPAux_spec p hp n n h0 (le_refl n)

/-- A denominator passing `isDecimalDen` divides the power of ten the printer
uses. -/
theorem den_dvd_pow10 (den : Nat) (h0 : 0 < den) (hdec : isDecimalDen den = true) :
    den ∣ 10 ^ (max ((stripP 2 den).1 + (stripP 5 (stripP 2 den).2).1) 1) := by
  obtain ⟨h2eq, _, h2pos⟩ := stripP_spec 2 den (by omega) h0
  obtain ⟨h5eq, _, _⟩ := stripP_spec 5 (stripP 2 den).2 (by omega) h2pos
  have hr1 : (stripP 5 (stripP 2 den).2).2 = 1 := by
    unfold isDecimalDen at hdec
    simpa using hdec
  set a := (stripP 2 den).1
  set b := (stripP 5 (stripP 2 den).2).1
  set k := max (a + b) 1 with hk
  have hden : den = 2 ^ a * 5 ^ b := by
    rw [h2eq, h5eq, hr1]
    ring
  have h10 : (10 : ℕ) ^ k = 2 ^ k * 5 ^ k := by
    rw [show (10 : ℕ) = 2 * 5 from rfl, Nat.mul_pow]
  rw [hden, h10]
  exact Nat.mul_dvd_mul (Nat.pow_dvd_pow 2 (by omega)) (Nat.pow_dvd_pow 5 (by omega))

theorem parseNatDigits_eq_none_of_mem (l : List Char) (c : Char) (hc : c ∈ l)
    (hcd : c.isDigit = false) : parseNatDigits l = none := by
  unfold parseNatDigits
  have hallne : ¬ (l.all Char.isDigit = true) := by
    intro hall
    rw [List.all_eq_true] at hall
    rw [hall c hc] at hcd
    cases hcd
  rw [if_neg (by intro h; subst h; cases hc), if_neg hallne]

/-- The character content of `floatRepr`: an optional minus sign, digits, one
dot, digits. -/
theorem floatRepr_decomposition (q : ℚ) :
    ∃ ip fp, (floatRepr q).data =
        (if q.num < 0 then ['-'] else []) ++ natDigs ip ++ '.' ::
          (List.replicate
            (max ((stripP 2 q.den).1 + (stripP 5 (stripP 2 q.den).2).1) 1 -
              (natDigs fp).length) '0' ++ natDigs fp)
      ∧ ip = q.num.natAbs * 10 ^ (max ((stripP 2 q.den).1 + (stripP 5 (stripP 2 q.den).2).1) 1)
          / q.den / 10 ^ (max ((stripP 2 q.den).1 + (stripP 5 (stripP 2 q.den).2).1) 1)
      ∧ fp = q.num.natAbs * 10 ^ (max ((stripP 2 q.den).1 + (stripP 5 (stripP 2 q.den).2).1) 1)
          / q.den % 10 ^ (max ((stripP 2 q.den).1 + (stripP 5 (stripP 2 q.den).2).1) 1) := by
  refine ⟨_, _, ?_, rfl, rfl⟩
  rfl

/-- A decimal-denominator rational round-trips through the float printer and
the numeric field parser. -/
theorem parseNumField_floatRepr (q : ℚ) (hdec : isDecimalDen q.den = true) :
    parseNumField (floatRepr q) = some q := by
  obtain ⟨ip, fp, hdata, hip, hfp⟩ := floatRepr_decomposition q
  set k := max ((stripP 2 q.den).1 + (stripP 5 (stripP 2 q.den).2).1) 1 with hkdef
  have hden0 : 0 < q.den := q.pos
  have hdvd : q.den ∣ 10 ^ k := den_dvd_pow10 q.den hden0 hdec
  set m := q.num.natAbs * 10 ^ k / q.den with hmdef
  have hk1 : 1 ≤ k := le_max_right _ 1
  have h10 : 0 < 10 ^ k := Nat.pow_pos (by omega)
  have hm_mul : m * q.den = q.num.natAbs * 10 ^ k :=
    Nat.div_mul_cancel (hdvd.mul_left q.num.natAbs)
  have hfp_lt : fp < 10 ^ k := by rw [hfp]; exact Nat.mod_lt _ h10
  have hfplen : (natDigs fp).length ≤ k := natDigs_length hfp_lt (by omega)
  set frac := List.replicate (k - (natDigs fp).length) '0' ++ natDigs fp with hfracdef
  have hfrac_len : frac.length = k := by
    rw [hfracdef]
    simp only [List.length_append, List.length_replicate]
    omega
  have hfrac_digits : frac.all Char.isDigit = true := by
    rw [List.all_eq_true]
    intro c hcmem
    rcases List.mem_append.mp hcmem with h | h
    · rw [List.eq_of_mem_replicate h]; rfl
    · exact (List.all_eq_true.mp (natDigs_all_digits fp)) c h
  have hfrac_nodot : '.' ∉ frac := by
    intro h
    rcases List.mem_append.mp h with h | h
    · exact absurd (List.eq_of_mem_replicate h) (by decide)
    · exact not_mem_natDigs '.' (by decide) fp h
  have hall_ws : ∀ c ∈ (floatRepr q).data, wsChar c = false := by
    rw [hdata]
    intro c hcmem
    rcases List.mem_append.mp hcmem with h | h
    · rcases List.mem_append.mp h with h | h
      · by_cases hq : q.num < 0
        · rw [if_pos hq] at h
          have : c = '-' := by simpa using h
          subst this
          rfl
        · rw [if_neg hq] at h
          cases h
      · exact wsChar_eq_false_of_isDigit c ((List.all_eq_true.mp (natDigs_all_digits ip)) c h)
    · rcases List.mem_cons.mp h with h | h
      · subst h; rfl
      · exact wsChar_eq_false_of_isDigit c ((List.all_eq_true.mp hfrac_digits) c h)
  have hm_split : ip * 10 ^ k + fp = m := by
    rw [hip, hfp]
    exact Nat.div_add_mod' m (10 ^ k)
  have hden_ne : ((q.den : ℕ) : ℚ) ≠ 0 := Nat.cast_ne_zero.mpr (by omega)
  have hpow_ne : (((10 : ℕ) ^ k : ℕ) : ℚ) ≠ 0 := Nat.cast_ne_zero.mpr (by omega)
  have hvq : ((m : ℕ) : ℚ) / (((10 : ℕ) ^ k : ℕ) : ℚ) =
      ((q.num.natAbs : ℕ) : ℚ) / ((q.den : ℕ) : ℚ) := by
    rw [div_eq_div_iff hpow_ne hden_ne]
    exact_mod_cast hm_mul
  have hfrac_val : digitsVal frac = fp := by
    rw [hfracdef, digitsVal_replicate_zero, digitsVal_natDigs]
  obtain ⟨d, rest, hdigs, hddig⟩ := natDigs_head_digit ip
  unfold parseNumField
  rw [stripChars_eq_self hall_ws, hdata]
  by_cases hq : q.num < 0
  · rw [if_pos hq]
    simp only [parseNumChars, List.cons_append, List.nil_append, List.head?_cons,
      List.tail_cons, decide_eq_true_eq, true_or, if_true]
    rw [splitSep_append_cons '.' (natDigs ip) frac (not_mem_natDigs '.' (by decide) ip),
      splitSep_no_sep '.' frac hfrac_nodot]
    simp only
    rw [if_neg (fun hc => natDigs_ne_nil ip hc.1),
      if_pos ⟨natDigs_all_digits ip, hfrac_digits⟩]
    congr 1
    rw [digitsVal_natDigs, hfrac_val, hfrac_len, hm_split, hvq]
    have hna : ((q.num.natAbs : ℕ) : ℚ) = -((q.num : ℤ) : ℚ) := by
      rw [Int.cast_natAbs]
      exact_mod_cast abs_of_neg hq
    rw [hna, neg_div, neg_neg, Rat.num_div_den]
  · rw [if_neg hq]
    simp only [List.nil_append]
    rw [hdigs]
    simp only [parseNumChars, List.cons_append, List.head?_cons, decide_eq_true_eq,
      Option.some.injEq]
    have hd1 : ¬ (d = '-') := fun hc => by subst hc; exact absurd hddig (by decide)
    have hd2 : ¬ (d = '+') := fun hc => by subst hc; exact absurd hddig (by decide)
    rw [if_neg (fun hor => Or.elim hor hd1 hd2)]
    rw [show d :: (rest ++ '.' :: frac) = natDigs ip ++ '.' :: frac by rw [hdigs]; rfl]
    rw [splitSep_append_cons '.' (natDigs ip) frac (not_mem_natDigs '.' (by decide) ip),
      splitSep_no_sep '.' frac hfrac_nodot]
    simp only
    rw [if_neg (fun hc => natDigs_ne_nil ip hc.1),
      if_pos ⟨natDigs_all_digits ip, hfrac_digits⟩, if_neg hd1]
    congr 1
    rw [digitsVal_natDigs, hfrac_val, hfrac_len, hm_split, hvq]
    have hna : ((q.num.natAbs : ℕ) : ℚ) = ((q.num : ℤ) : ℚ) := by
      rw [Int.cast_natAbs]
      exact_mod_cast abs_of_nonneg (not_lt.mp hq)
    rw [hna, Rat.num_div_den]

theorem isDecimalDen_of_dvd (den t : Nat) (h0 : 0 < den) (hd : den ∣ 10 ^ t) :
    isDecimalDen den = true := by
  obtain ⟨h2eq, h2nd, h2pos⟩ := stripP_spec 2 den (by omega) h0
  obtain ⟨h5eq, h5nd, h5pos⟩ := stripP_spec 5 (stripP 2 den).2 (by omega) h2pos
  set r := (stripP 5 (stripP 2 den).2).2 with hrdef
  have hr2 : ¬ 2 ∣ r := fun hc => h2nd (h5eq ▸ hc.mul_left _)
  have hr5 : ¬ 5 ∣ r := h5nd
  have hrden : r ∣ den := by
    rw [h2eq, h5eq]
    exact (Dvd.intro_left _ rfl).trans (Dvd.intro_left _ rfl)
  have hco : Nat.Coprime r 10 := by
    rw [show (10 : ℕ) = 2 * 5 from rfl]
    exact Nat.Coprime.mul_right
      (Nat.coprime_comm.mp ((Nat.prime_two.coprime_iff_not_dvd).mpr hr2))
      (Nat.coprime_comm.mp ((Nat.prime_five.coprime_iff_not_dvd).mpr hr5))
  have hr1 : r = 1 := (hco.pow_right t).eq_one_of_dvd (hrden.trans hd)
  unfold isDecimalDen
  rw [← hrdef, hr1]
  rfl

theorem parseNumChars_dvd (l : List Char) (q : ℚ) (h : parseNumChars l = some q) :
    ∃ t, q.den ∣ 10 ^ t := by
  simp only [parseNumChars] at h
  set body := if l.head? = some '-' ∨ l.head? = some '+' then l.tail else l with hbody
  cases hsp : splitSep '.' body with
  | nil => rw [hsp] at h; cases h
  | cons ip rest =>
    cases rest with
    | nil =>
      rw [hsp] at h
      simp only at h
      by_cases h1 : ip = []
      · rw [if_pos h1] at h; cases h
      · rw [if_neg h1] at h
        by_cases h2 : ip.all Char.isDigit = true
        · rw [if_pos h2] at h
          injection h with h3
          refine ⟨0, ?_⟩
          rw [← h3]
          by_cases hneg : (l.head? = some '-')
          · simp only [hneg, decide_True, if_true, Rat.neg_den, Rat.den_natCast, pow_zero]
            exact Nat.dvd_refl 1
          · simp only [hneg, decide_False, Bool.false_eq_true, if_false, Rat.den_natCast,
              pow_zero]
            exact Nat.dvd_refl 1
        · rw [if_neg h2] at h; cases h
    | cons fp rest2 =>
      cases rest2 with
      | nil =>
        rw [hsp] at h
        simp only at h
        by_cases h1 : ip = [] ∧ fp = []
        · rw [if_pos h1] at h; cases h
        · rw [if_neg h1] at h
          by_cases h2 : ip.all Char.isDigit = true ∧ fp.all Char.isDigit = true
          · rw [if_pos h2] at h
            injection h with h3
            refine ⟨fp.length, ?_⟩
            have hbase : ∀ a t : Nat,
                (((a : ℕ) : ℚ) / (((10 : ℕ) ^ t : ℕ) : ℚ)).den ∣ 10 ^ t := by
              intro a t
              have hdd : ((a : ℕ) : ℚ) / (((10 : ℕ) ^ t : ℕ) : ℚ) =
                  Rat.divInt (a : ℤ) ((10 : ℤ) ^ t) := by
                rw [Rat.divInt_eq_div]
                push_cast
                ring
              have hdvd := Rat.den_dvd (a : ℤ) ((10 : ℤ) ^ t)
              rw [← hdd] at hdvd
              have : ((10 : ℤ) ^ t) = (((10 ^ t : ℕ) : ℤ)) := by push_cast; ring
              rw [this] at hdvd
              exact_mod_cast hdvd
            rw [← h3]
            by_cases hneg : (l.head? = some '-')
            · simp only [hneg, decide_True, if_true, Rat.neg_den]
              exact hbase _ _
            · simp only [hneg, decide_False, Bool.false_eq_true, if_false]
              exact hbase _ _
          · rw [if_neg h2] at h; cases h
      | cons z rest3 => rw [hsp] at h; cases h

/-- Every value the numeric field parser produces has a decimal denominator
(and hence round-trips through `floatRepr`). -/
theorem parseNumField_isDecimalDen (s : String) (q : ℚ) (h : parseNumField s = some q) :
    isDecimalDen q.den = true := by
  obtain ⟨t, ht⟩ := parseNumChars_dvd _ q h
  exact isDecimalDen_of_dvd q.den t q.pos ht

/-! ## Written fields: character content and token facts (for C9) -/

/-- The characters of `intRepr`. -/
theorem intRepr_chars (n : ℤ) :
    ∀ c ∈ (intRepr n).data, c.isDigit = true ∨ c = '-' ∨ c = '.' := by
  intro c hc
  unfold intRepr at hc
  simp only at hc
  rcases List.mem_append.mp hc with h | h
  · by_cases hn : n < 0
    · rw [if_pos hn] at h
      have : c = '-' := by simpa using h
      exact Or.inr (Or.inl this)
    · rw [if_neg hn] at h
      cases h
  · exact Or.inl ((List.all_eq_true.mp (natDigs_all_digits n.natAbs)) c h)

/-- The characters of `floatRepr`. -/
theorem floatRepr_chars (q : ℚ) :
    ∀ c ∈ (floatRepr q).data, c.isDigit = true ∨ c = '-' ∨ c = '.' := by
  obtain ⟨ip, fp, hdata, _, _⟩ := floatRepr_decomposition q
  intro c hc
  rw [hdata] at hc
  rcases List.mem_append.mp hc with h | h
  · rcases List.mem_append.mp h with h | h
    · by_cases hq : q.num < 0
      · rw [if_pos hq] at h
        have : c = '-' := by simpa using h
        exact Or.inr (Or.inl this)
      · rw [if_neg hq] at h
        cases h
    · exact Or.inl ((List.all_eq_true.mp (natDigs_all_digits ip)) c h)
  · rcases List.mem_cons.mp h with h | h
    · exact Or.inr (Or.inr h)
    · rcases List.mem_append.mp h with h | h
      · rw [List.eq_of_mem_replicate h]
        exact Or.inl rfl
      · exact Or.inl ((List.all_eq_true.mp (natDigs_all_digits fp)) c h)

/-- Numeric characters are not separators, quotes or CR. -/
theorem numChar_not_special (c : Char) (h : c.isDigit = true ∨ c = '-' ∨ c = '.') :
    c ≠ ',' ∧ c ≠ '\n' ∧ c ≠ '\r' ∧ c ≠ '"' := by
  rcases h with h | h | h
  · refine ⟨?_, ?_, ?_, ?_⟩ <;> (intro hc; subst hc; exact absurd h (by decide))
  · subst h; refine ⟨by decide, by decide, by decide, by decide⟩
  · subst h; refine ⟨by decide, by decide, by decide, by decide⟩

/-- A nonempty string made only of digits, `-` and `.` is not a missing-value
token (each nonempty default NA token contains some other character). -/
theorem isNaField_eq_false_of_numChars (s : String) (hne : s.data ≠ [])
    (h : ∀ c ∈ s.data, c.isDigit = true ∨ c = '-' ∨ c = '.') : isNaField s = false := by
  have key : ∀ t ∈ naTokens,
      t.data = [] ∨ ∃ c ∈ t.data, ¬ (c.isDigit = true ∨ c = '-' ∨ c = '.') := by decide
  cases hna : isNaField s with
  | false => rfl
  | true =>
    exfalso
    have hmem : s ∈ naTokens := of_decide_eq_true hna
    rcases key s hmem with hempty | ⟨c, hc, hbad⟩
    · exact hne hempty
    · exact hbad (h c hc)

/-- A nonempty string made only of digits, `-` and `.` is not a boolean token. -/
theorem isBoolField_eq_false_of_numChars (s : String)
    (h : ∀ c ∈ s.data, c.isDigit = true ∨ c = '-' ∨ c = '.') : isBoolField s = false := by
  have key : ∀ t ∈ boolTrueTokens ++ boolFalseTokens,
      ∃ c ∈ t.data, ¬ (c.isDigit = true ∨ c = '-' ∨ c = '.') := by decide
  cases hb : isBoolField s with
  | false => rfl
  | true =>
    exfalso
    unfold isBoolField at hb
    rw [Bool.or_eq_true] at hb
    have hmem : s ∈ boolTrueTokens ++ boolFalseTokens := by
      rcases hb with hb | hb
      · exact List.mem_append.mpr (Or.inl (of_decide_eq_true hb))
      · exact List.mem_append.mpr (Or.inr (of_decide_eq_true hb))
    obtain ⟨c, hc, hbad⟩ := key s hmem
    exact hbad (h c hc)

/-- `floatRepr` never parses as an integer (it always contains a dot). -/
theorem parseIntField_floatRepr (q : ℚ) : parseIntField (floatRepr q) = none := by
  obtain ⟨ip, fp, hdata, _, _⟩ := floatRepr_decomposition q
  have hws : ∀ c ∈ (floatRepr q).data, wsChar c = false := by
    intro c hc
    rcases floatRepr_chars q c hc with h | h | h
    · exact wsChar_eq_false_of_isDigit c h
    · subst h; rfl
    · subst h; rfl
  unfold parseIntField
  rw [stripChars_eq_self hws, hdata]
  have hdot_tail :
      '.' ∈ ((if q.num < 0 then ['-'] else []) ++ natDigs ip ++ '.' ::
        (List.replicate
          (max ((stripP 2 q.den).1 + (stripP 5 (stripP 2 q.den).2).1) 1 -
            (natDigs fp).length) '0' ++ natDigs fp)).tail := by
    obtain ⟨d, rest, hdigs, _⟩ := natDigs_head_digit ip
    by_cases hq : q.num < 0
    · rw [if_pos hq]
      simp
    · rw [if_neg hq]
      rw [hdigs]
      simp
  unfold parseIntChars
  by_cases h1 : ((if q.num < 0 then ['-'] else []) ++ natDigs ip ++ '.' ::
      (List.replicate
        (max ((stripP 2 q.den).1 + (stripP 5 (stripP 2 q.den).2).1) 1 -
          (natDigs fp).length) '0' ++ natDigs fp)).head? = some '-'
  · rw [if_pos h1, parseNatDigits_eq_none_of_mem _ '.' hdot_tail (by decide)]
    rfl
  · rw [if_neg h1]
    by_cases h2 : ((if q.num < 0 then ['-'] else []) ++ natDigs ip ++ '.' ::
        (List.replicate
          (max ((stripP 2 q.den).1 + (stripP 5 (stripP 2 q.den).2).1) 1 -
            (natDigs fp).length) '0' ++ natDigs fp)).head? = some '+'
    · rw [if_pos h2, parseNatDigits_eq_none_of_mem _ '.' hdot_tail (by decide)]
      rfl
    · rw [if_neg h2,
        parseNatDigits_eq_none_of_mem _ '.' (List.mem_of_mem_tail hdot_tail) (by decide)]
      rfl

theorem parseNatDigits_some_inv (l : List Char) (m : Nat) (h : parseNatDigits l = some m) :
    l ≠ [] ∧ l.all Char.isDigit = true := by
  unfold parseNatDigits at h
  by_cases h1 : l = []
  · rw [if_pos h1] at h; cases h
  · rw [if_neg h1] at h
    by_cases h2 : l.all Char.isDigit = true
    · exact ⟨h1, h2⟩
    · rw [if_neg h2] at h; cases h

theorem parseNumChars_some_of_digits (l : List Char)
    (hne : (if l.head? = some '-' ∨ l.head? = some '+' then l.tail else l) ≠ [])
    (hall : (if l.head? = some '-' ∨ l.head? = some '+' then l.tail else l).all
      Char.isDigit = true) : ∃ q, parseNumChars l = some q := by
  simp only [parseNumChars]
  have hnodot : '.' ∉ (if l.head? = some '-' ∨ l.head? = some '+' then l.tail else l) :=
    fun hc => absurd ((List.all_eq_true.mp hall) '.' hc) (by decide)
  rw [splitSep_no_sep '.' _ hnodot]
  simp only
  rw [if_neg hne, if_pos hall]
  exact ⟨_, rfl⟩

/-- An integer-parsing field also parses as a number. -/
theorem parseNumChars_of_parseIntChars (l : List Char) (n : ℤ)
    (h : parseIntChars l = some n) : ∃ q, parseNumChars l = some q := by
  unfold parseIntChars at h
  by_cases h1 : l.head? = some '-'
  · rw [if_pos h1] at h
    cases hpd : parseNatDigits l.tail with
    | none => rw [hpd] at h; cases h
    | some m =>
      obtain ⟨hne, hall⟩ := parseNatDigits_some_inv _ _ hpd
      have hcond : (l.head? = some '-' ∨ l.head? = some '+') := Or.inl h1
      exact parseNumChars_some_of_digits l (by rw [if_pos hcond]; exact hne)
        (by rw [if_pos hcond]; exact hall)
  · rw [if_neg h1] at h
    by_cases h2 : l.head? = some '+'
    · rw [if_pos h2] at h
      cases hpd : parseNatDigits l.tail with
      | none => rw [hpd] at h; cases h
      | some m =>
        obtain ⟨hne, hall⟩ := parseNatDigits_some_inv _ _ hpd
        have hcond : (l.head? = some '-' ∨ l.head? = some '+') := Or.inr h2
        exact parseNumChars_some_of_digits l (by rw [if_pos hcond]; exact hne)
          (by rw [if_pos hcond]; exact hall)
    · rw [if_neg h2] at h
      cases hpd : parseNatDigits l with
      | none => rw [hpd] at h; cases h
      | some m =>
        obtain ⟨hne, hall⟩ := parseNatDigits_some_inv _ _ hpd
        have hcond : ¬ (l.head? = some '-' ∨ l.head? = some '+') :=
          fun hc => hc.elim h1 h2
        exact parseNumChars_some_of_digits l (by rw [if_neg hcond]; exact hne)
          (by rw [if_neg hcond]; exact hall)

/-- A boolean token is recognised by the (broader) boolean-like test. -/
theorem boolLikeField_of_isBoolField (s : String) (h : isBoolField s = true) :
    boolLikeField s = true := by
  unfold isBoolField at h
  rw [Bool.or_eq_true] at h
  have hmem : s ∈ boolTrueTokens ++ boolFalseTokens := by
    rcases h with h | h
    · exact List.mem_append.mpr (Or.inl (of_decide_eq_true h))
    · exact List.mem_append.mpr (Or.inr (of_decide_eq_true h))
  have key : ∀ t ∈ boolTrueTokens ++ boolFalseTokens, boolLikeField t = true := by decide
  exact key s hmem

/-! ## List plumbing and header fix-ups (for C9) -/

theorem list_ext_getD {α : Type} (d : α) :
    ∀ (l₁ l₂ : List α), l₁.length = l₂.length →
      (∀ j, j < l₁.length → l₁.getD j d = l₂.getD j d) → l₁ = l₂ := by
  intro l₁
  induction l₁ with
  | nil =>
    intro l₂ hlen _
    cases l₂ with
    | nil => rfl
    | cons y ys => simp at hlen
  | cons x xs ih =>
    intro l₂ hlen hpt
    cases l₂ with
    | nil => simp at hlen
    | cons y ys =>
      have h0 := hpt 0 (by simp)
      simp only [List.getD_cons_zero] at h0
      subst h0
      congr 1
      refine ih ys (by simpa using hlen) (fun j hj => ?_)
      have := hpt (j + 1) (by simpa using Nat.succ_lt_succ hj)
      simpa using this

theorem getD_zipWith {α β γ : Type} (f : α → β → γ) :
    ∀ (a : List α) (b : List β) (j : Nat) (da : α) (db : β) (dc : γ),
      j < a.length → j < b.length →
      (List.zipWith f a b).getD j dc = f (a.getD j da) (b.getD j db) := by
  intro a
  induction a with
  | nil => intro b j da db dc hj _; simp at hj
  | cons x xs ih =>
    intro b j da db dc hj hjb
    cases b with
    | nil => simp at hjb
    | cons y ys =>
      cases j with
      | zero => simp
      | succ j =>
        simp only [List.zipWith_cons_cons, List.getD_cons_succ]
        exact ih ys j da db dc (by simpa using hj) (by simpa using hjb)

theorem getD_map {α β : Type} (f : α → β) :
    ∀ (l : List α) (j : Nat) (da : α) (db : β), j < l.length →
      (l.map f).getD j db = f (l.getD j da) := by
  intro l
  induction l with
  | nil => intro j da db hj; simp at hj
  | cons x xs ih =>
    intro j da db hj
    cases j with
    | zero => simp
    | succ j =>
      simp only [List.map_cons, List.getD_cons_succ]
      exact ih j da db (by simpa using hj)

theorem joinSep_append_nil (sep : Char) :
    ∀ L : List (List Char), L ≠ [] → joinSep sep (L ++ [[]]) = joinSep sep L ++ [sep] := by
  intro L
  induction L with
  | nil => intro h; exact absurd rfl h
  | cons p ps ih =>
    intro _
    cases ps with
    | nil => rfl
    | cons q qs =>
      have h2 := ih (by simp)
      calc joinSep sep (p :: (q :: qs ++ [[]]))
          = p ++ sep :: joinSep sep (q :: qs ++ [[]]) := by
            cases qs <;> rfl
        _ = p ++ sep :: (joinSep sep (q :: qs) ++ [sep]) := by rw [h2]
        _ = (p ++ sep :: joinSep sep (q :: qs)) ++ [sep] := by simp
        _ = joinSep sep (p :: q :: qs) ++ [sep] := rfl

theorem unnamedFix_eq_self :
    ∀ (names : List String) (i : Nat), (∀ n ∈ names, n ≠ "") → unnamedFix i names = names := by
  intro names
  induction names with
  | nil => intro i _; rfl
  | cons n ns ih =>
    intro i h
    unfold unnamedFix
    rw [if_neg (h n (by simp))]
    rw [ih (i + 1) (fun x hx => h x (by simp [hx]))]

theorem mangleLoop_zero (fuel : Nat) (m : List (String × Nat)) (col : String) :
    mangleLoop (fuel + 1) m col 0 = (col, m) := by
  rw [mangleLoop, if_pos rfl]

theorem dedupNamesAux_eq_self :
    ∀ (names : List String) (m : List (String × Nat)), names.Nodup →
      (∀ n ∈ names, countsGet m n = 0) → dedupNamesAux m names = names := by
  intro names
  induction names with
  | nil => intro m _ _; rfl
  | cons col rest ih =>
    intro m hnd hm
    unfold dedupNamesAux
    rw [hm col (by simp)]
    rw [show (100 : Nat) = 99 + 1 from rfl, mangleLoop_zero]
    simp only
    congr 1
    refine ih _ (List.nodup_cons.mp hnd).2 (fun n hn => ?_)
    have hne : n ≠ col := fun hc => (List.nodup_cons.mp hnd).1 (hc ▸ hn)
    unfold countsGet
    rw [List.lookup]
    rw [beq_eq_false_iff_ne.mpr hne]
    exact hm n (by simp [hn])

theorem dedupNames_eq_self (names : List String) (hnd : names.Nodup) :
    dedupNames names = names :=
  dedupNamesAux_eq_self names [] hnd (fun _ _ => rfl)

/-- Structural invariants of every table the cleaning phase returns: dtypes
unchanged, names stripped, rows deduplicated, every row has a non-missing
cell, and object-column cells are stripped strings. -/
theorem cleanE_ok_invariants (df0 df : DataFrame) (h : cleanE df0 = .ok df) :
    df.dtypes = df0.dtypes
    ∧ (∀ n ∈ df.colNames, pstrip n = n)
    ∧ df.rows.Nodup
    ∧ (∀ r ∈ df.rows, ∃ c ∈ r, c ≠ Cell.na)
    ∧ (∀ r ∈ df.rows, ∀ j, j < r.length → df.dtypes.getD j Dtype.object = Dtype.object →
        ∃ s, r.getD j Cell.na = Cell.str s ∧ pstrip s = s) := by
  unfold cleanE at h
  by_cases hn : (df0.colNames.map pstrip).Nodup
  · simp only [if_pos hn] at h
    injection h with h2
    subst h2
    refine ⟨rfl, ?_, ?_, ?_, ?_⟩
    · intro n hn2
      simp only [dropDuplicatesRows, dropAllNaRows, trimCells] at hn2
      obtain ⟨x, _, rfl⟩ := List.mem_map.mp hn2
      exact pstrip_idem x
    · exact dedupSeen_nodup _ []
    · intro r hr
      simp only [dropDuplicatesRows, dropAllNaRows, trimCells, drop_duplicates] at hr ⊢
      have hr2 := (dedupSeen_sublist _ []).mem hr
      have hr3 := List.mem_filter.mp hr2
      obtain ⟨c, hc, hcna⟩ := List.any_eq_true.mp hr3.2
      exact ⟨c, hc, of_decide_eq_true hcna⟩
    · intro r hr j hj hobj
      simp only [dropDuplicatesRows, dropAllNaRows, trimCells, drop_duplicates] at hr hobj
      have hr2 := (dedupSeen_sublist _ []).mem hr
      have hr3 := (List.mem_filter.mp hr2).1
      obtain ⟨r0, _, rfl⟩ := List.mem_map.mp hr3
      rw [List.length_zipWith] at hj
      have hjd : j < df0.dtypes.length := lt_of_lt_of_le hj (Nat.min_le_left _ _)
      have hjr : j < r0.length := lt_of_lt_of_le hj (Nat.min_le_right _ _)
      rw [getD_zipWith _ df0.dtypes r0 j Dtype.object Cell.na Cell.na hjd hjr]
      rw [if_pos hobj]
      exact ⟨pstrip (pyStr (r0.getD j Cell.na)), rfl, pstrip_idem _⟩
  · simp only [if_neg hn] at h
    cases h

theorem cellOK_int64 (c : Cell) (h : cellOKForDtype Dtype.int64 c = true) :
    ∃ q : ℚ, c = .num q ∧ q.den = 1 := by
  cases c with
  | num q => exact ⟨q, rfl, by simpa [cellOKForDtype] using h⟩
  | na => exact Bool.noConfusion h
  | str s => exact Bool.noConfusion h
  | bool b => exact Bool.noConfusion h

theorem cellOK_float64 (c : Cell) (h : cellOKForDtype Dtype.float64 c = true) :
    c = .na ∨ ∃ q : ℚ, c = .num q ∧ isDecimalDen q.den = true := by
  cases c with
  | na => exact Or.inl rfl
  | num q => exact Or.inr ⟨q, rfl, by simpa [cellOKForDtype] using h⟩
  | str s => exact Bool.noConfusion h
  | bool b => exact Bool.noConfusion h

theorem cellOK_boolean (c : Cell) (h : cellOKForDtype Dtype.boolean c = true) :
    ∃ b : Bool, c = .bool b := by
  cases c with
  | bool b => exact ⟨b, rfl⟩
  | na => exact Bool.noConfusion h
  | num q => exact Bool.noConfusion h
  | str s => exact Bool.noConfusion h

theorem cellOK_object (c : Cell) (h : cellOKForDtype Dtype.object c = true) :
    ∃ s : String, c = .str s ∧ isNaField s = false ∧ goodCell s = true := by
  cases c with
  | str s =>
    refine ⟨s, rfl, ?_, ?_⟩
    · have h2 : (!(isNaField s) && goodCell s) = true := h
      rw [Bool.and_eq_true, Bool.not_eq_true'] at h2
      exact h2.1
    · have h2 : (!(isNaField s) && goodCell s) = true := h
      rw [Bool.and_eq_true] at h2
      exact h2.2
  | na => exact Bool.noConfusion h
  | num q => exact Bool.noConfusion h
  | bool b => exact Bool.noConfusion h

theorem floatRepr_ne_nil (q : ℚ) : (floatRepr q).data ≠ [] := by
  obtain ⟨ip, fp, hdata, _, _⟩ := floatRepr_decomposition q
  rw [hdata]
  intro hc
  rcases List.append_eq_nil.mp hc with ⟨_, h2⟩
  cases h2

theorem isNaField_floatRepr (q : ℚ) : isNaField (floatRepr q) = false :=
  isNaField_eq_false_of_numChars _ (floatRepr_ne_nil q) (floatRepr_chars q)

theorem convertField_float64_floatRepr (q : ℚ) (hdec : isDecimalDen q.den = true) :
    convertField Dtype.float64 (floatRepr q) = .num q := by
  unfold convertField
  rw [isNaField_floatRepr]
  simp only [Bool.false_eq_true, if_false]
  rw [parseNumField_floatRepr q hdec]

/-- Re-inference and conversion identity for an int64 column. -/
theorem reinf_int64 (cells : List Cell) (hne : cells ≠ [])
    (hok : ∀ c ∈ cells, cellOKForDtype Dtype.int64 c = true) :
    inferDtype (cells.map (cellField Dtype.int64)) = Dtype.int64
    ∧ ∀ c ∈ cells, convertField Dtype.int64 (cellField Dtype.int64 c) = c := by
  have hconv : ∀ c ∈ cells, convertField Dtype.int64 (cellField Dtype.int64 c) = c := by
    intro c hc
    obtain ⟨q, rfl, hden⟩ := cellOK_int64 c (hok c hc)
    show convertField Dtype.int64 (intRepr q.num) = Cell.num q
    unfold convertField
    rw [parseIntField_intRepr]
    conv_rhs => rw [← Rat.num_div_den q]
    rw [hden]
    norm_num
  refine ⟨?_, hconv⟩
  unfold inferDtype
  rw [if_neg (fun hc => hne (List.map_eq_nil_iff.mp (List.isEmpty_iff.mp hc)))]
  rw [if_pos]
  rw [List.all_eq_true]
  intro f hf
  obtain ⟨c, hc, rfl⟩ := List.mem_map.mp hf
  obtain ⟨q, rfl, _⟩ := cellOK_int64 c (hok c hc)
  show (parseIntField (intRepr q.num)).isSome = true
  rw [parseIntField_intRepr]
  rfl

/-- Re-inference and conversion identity for a float64 column. -/
theorem reinf_float64 (cells : List Cell) (hne : cells ≠ [])
    (hok : ∀ c ∈ cells, cellOKForDtype Dtype.float64 c = true) :
    inferDtype (cells.map (cellField Dtype.float64)) = Dtype.float64
    ∧ ∀ c ∈ cells, convertField Dtype.float64 (cellField Dtype.float64 c) = c := by
  have hconv : ∀ c ∈ cells, convertField Dtype.float64 (cellField Dtype.float64 c) = c := by
    intro c hc
    rcases cellOK_float64 c (hok c hc) with rfl | ⟨q, rfl, hdec⟩
    · rfl
    · exact convertField_float64_floatRepr q hdec
  refine ⟨?_, hconv⟩
  obtain ⟨c0, rest, rfl⟩ : ∃ c0 rest, cells = c0 :: rest := by
    cases cells with
    | nil => exact absurd rfl hne
    | cons c0 rest => exact ⟨c0, rest, rfl⟩
  have hint0 : parseIntField (cellField Dtype.float64 c0) = none := by
    rcases cellOK_float64 c0 (hok c0 (by simp)) with rfl | ⟨q, rfl, _⟩
    · rfl
    · exact parseIntField_floatRepr q
  unfold inferDtype
  rw [if_neg (by intro hc; cases List.isEmpty_iff.mp hc)]
  rw [if_neg]
  · rw [if_pos]
    rw [List.all_eq_true]
    intro f hf
    obtain ⟨c, hc, rfl⟩ := List.mem_map.mp hf
    rcases cellOK_float64 c (hok c hc) with rfl | ⟨q, rfl, hdec⟩
    · rfl
    · rw [Bool.or_eq_true]
      right
      show (parseNumField (floatRepr q)).isSome = true
      rw [parseNumField_floatRepr q hdec]
      rfl
  · intro hall
    rw [List.all_eq_true] at hall
    have h0 := hall (cellField Dtype.float64 c0) (by simp)
    rw [hint0] at h0
    cases h0

/-- Re-inference and conversion identity for a boolean column. -/
theorem reinf_boolean (cells : List Cell) (hne : cells ≠ [])
    (hok : ∀ c ∈ cells, cellOKForDtype Dtype.boolean c = true) :
    inferDtype (cells.map (cellField Dtype.boolean)) = Dtype.boolean
    ∧ ∀ c ∈ cells, convertField Dtype.boolean (cellField Dtype.boolean c) = c := by
  have hconv : ∀ c ∈ cells, convertField Dtype.boolean (cellField Dtype.boolean c) = c := by
    intro c hc
    obtain ⟨b, rfl⟩ := cellOK_boolean c (hok c hc)
    cases b <;> rfl
  refine ⟨?_, hconv⟩
  obtain ⟨c0, rest, rfl⟩ : ∃ c0 rest, cells = c0 :: rest := by
    cases cells with
    | nil => exact absurd rfl hne
    | cons c0 rest => exact ⟨c0, rest, rfl⟩
  obtain ⟨b0, rfl⟩ := cellOK_boolean c0 (hok c0 (by simp))
  unfold inferDtype
  rw [if_neg (by intro hc; cases List.isEmpty_iff.mp hc)]
  rw [if_neg, if_neg, if_pos]
  · rw [List.all_eq_true]
    intro f hf
    obtain ⟨c, hc, rfl⟩ := List.mem_map.mp hf
    obtain ⟨b, rfl⟩ := cellOK_boolean c (hok c hc)
    cases b <;> rfl
  · intro hall
    rw [List.all_eq_true] at hall
    have h0 := hall (cellField Dtype.boolean (Cell.bool b0)) (by simp)
    cases b0 <;> exact absurd h0 (by decide)
  · intro hall
    rw [List.all_eq_true] at hall
    have h0 := hall (cellField Dtype.boolean (Cell.bool b0)) (by simp)
    cases b0 <;> exact absurd h0 (by decide)

/-- Re-inference and conversion identity for an object (text) column. -/
theorem reinf_object (cells : List Cell) (hne : cells ≠ [])
    (hok : ∀ c ∈ cells, cellOKForDtype Dtype.object c = true)
    (hstable : textColStable cells = true) :
    inferDtype (cells.map (cellField Dtype.object)) = Dtype.object
    ∧ ∀ c ∈ cells, convertField Dtype.object (cellField Dtype.object c) = c := by
  have hconv : ∀ c ∈ cells, convertField Dtype.object (cellField Dtype.object c) = c := by
    intro c hc
    obtain ⟨s, rfl, hna, _⟩ := cellOK_object c (hok c hc)
    show convertField Dtype.object s = Cell.str s
    unfold convertField
    rw [hna]
    rfl
  refine ⟨?_, hconv⟩
  unfold textColStable at hstable
  rw [Bool.or_eq_true] at hstable
  rcases hstable with hemp | hany
  · exact absurd (List.isEmpty_iff.mp hemp) hne
  · rw [Bool.and_eq_true] at hany
    obtain ⟨cN, hcN, hcNprop⟩ := List.any_eq_true.mp hany.1
    obtain ⟨cB, hcB, hcBprop⟩ := List.any_eq_true.mp hany.2
    obtain ⟨sN, rfl, hnaN, _⟩ := cellOK_object cN (hok cN hcN)
    obtain ⟨sB, rfl, _, _⟩ := cellOK_object cB (hok cB hcB)
    have hnumN : numericLikeField sN = false := by
      have h2 : (!(numericLikeField sN)) = true := hcNprop
      rwa [Bool.not_eq_true'] at h2
    have hboolB : boolLikeField sB = false := by
      have h2 : (!(boolLikeField sB)) = true := hcBprop
      rwa [Bool.not_eq_true'] at h2
    have hnumParse : parseNumField sN = none := by
      cases hp : parseNumField sN with
      | none => rfl
      | some q =>
        exfalso
        unfold numericLikeField at hnumN
        rw [Bool.or_eq_false_iff, Bool.or_eq_false_iff] at hnumN
        have := hnumN.1.1
        unfold parseNumField at hp
        rw [hp] at this
        cases this
    have hintParse : parseIntField sN = none := by
      cases hp : parseIntField sN with
      | none => rfl
      | some n =>
        exfalso
        obtain ⟨q, hq⟩ := parseNumChars_of_parseIntChars _ n hp
        have : parseNumField sN = some q := hq
        rw [hnumParse] at this
        cases this
    have hboolTok : isBoolField sB = false := by
      cases hb : isBoolField sB with
      | false => rfl
      | true =>
        have := boolLikeField_of_isBoolField sB hb
        rw [hboolB] at this
        cases this
    unfold inferDtype
    rw [if_neg (fun hc => hne (List.map_eq_nil_iff.mp (List.isEmpty_iff.mp hc)))]
    rw [if_neg, if_neg, if_neg]
    · intro hall
      rw [List.all_eq_true] at hall
      have h0 := hall (cellField Dtype.object (Cell.str sB)) (List.mem_map_of_mem _ hcB)
      have h0' : isBoolField sB = true := h0
      rw [hboolTok] at h0'
      cases h0'
    · intro hall
      rw [List.all_eq_true] at hall
      have h0 := hall (cellField Dtype.object (Cell.str sN)) (List.mem_map_of_mem _ hcN)
      rw [Bool.or_eq_true] at h0
      rcases h0 with h0 | h0
      · have h0' : isNaField sN = true := h0
        rw [hnaN] at h0'
        cases h0'
      · have h0' : (parseNumField sN).isSome = true := h0
        rw [hnumParse] at h0'
        cases h0'
    · intro hall
      rw [List.all_eq_true] at hall
      have h0 := hall (cellField Dtype.object (Cell.str sN)) (List.mem_map_of_mem _ hcN)
      have h0' : (parseIntField sN).isSome = true := h0
      rw [hintParse] at h0'
      cases h0'

/-! ## UTF-8 round trip (saving the cleaned CSV re-reads exactly) -/

theorem encodeChar_ne_nil (c : Char) : encodeChar c ≠ [] := by
  simp only [encodeChar]
  split_ifs <;> exact List.cons_ne_nil _ _

theorem utf8Dec1_encodeChar (c : Char) (rest : List Nat) :
    utf8Dec1 (encodeChar c ++ rest) = some (c, rest) := by
  have hvalid : c.toNat < 55296 ∨ (57343 < c.toNat ∧ c.toNat < 1114112) := c.valid
  have hcv : Char.ofNat c.toNat = c := Char.ofNat_toNat c
  set v := c.toNat with hv
  simp only [encodeChar]
  by_cases h1 : v < 128
  · rw [if_pos h1]
    simp only [List.cons_append, List.nil_append]
    have e0 : byteAt (v :: rest) 0 = v := rfl
    unfold utf8Dec1
    rw [e0, if_pos h1, hcv]
    rfl
  · rw [if_neg h1]
    by_cases h2 : v < 2048
    · rw [if_pos h2]
      simp only [List.cons_append, List.nil_append]
      have e0 : byteAt ((192 + v / 64) :: (128 + v % 64) :: rest) 0 = 192 + v / 64 := rfl
      have e1 : byteAt ((192 + v / 64) :: (128 + v % 64) :: rest) 1 = 128 + v % 64 := rfl
      unfold utf8Dec1
      rw [e0, e1]
      rw [if_neg (by omega), if_neg (by omega), if_pos (by omega), if_pos (by omega)]
      rw [show (192 + v / 64 - 192) * 64 + (128 + v % 64 - 128) = v by omega, hcv]
      rfl
    · rw [if_neg h2]
      by_cases h3 : v < 65536
      · rw [if_pos h3]
        simp only [List.cons_append, List.nil_append]
        have e0 : byteAt ((224 + v / 4096) :: (128 + v / 64 % 64) :: (128 + v % 64) :: rest) 0 =
            224 + v / 4096 := rfl
        have e1 : byteAt ((224 + v / 4096) :: (128 + v / 64 % 64) :: (128 + v % 64) :: rest) 1 =
            128 + v / 64 % 64 := rfl
        have e2 : byteAt ((224 + v / 4096) :: (128 + v / 64 % 64) :: (128 + v % 64) :: rest) 2 =
            128 + v % 64 := rfl
        unfold utf8Dec1
        rw [e0, e1, e2]
        rw [if_neg (by omega), if_neg (by omega), if_neg (by omega), if_pos (by omega)]
        have hval : (224 + v / 4096 - 224) * 4096 + (128 + v / 64 % 64 - 128) * 64 +
            (128 + v % 64 - 128) = v := by omega
        by_cases hE0 : 224 + v / 4096 = 224
        · rw [if_pos hE0, if_neg (by omega : ¬(224 + v / 4096 = 237))]
          rw [if_pos (by omega), hval, hcv]
          rfl
        · rw [if_neg hE0]
          by_cases hED : 224 + v / 4096 = 237
          · rw [if_pos hED]
            have hsur : v < 55296 := by
              rcases hvalid with h | h
              · exact h
              · omega
            rw [if_pos (by omega), hval, hcv]
            rfl
          · rw [if_neg hED]
            rw [if_pos (by omega), hval, hcv]
            rfl
      · rw [if_neg h3]
        have h4 : v < 1114112 := by
          rcases hvalid with h | h
          · omega
          · exact h.2
        simp only [List.cons_append, List.nil_append]
        have e0 : byteAt ((240 + v / 262144) :: (128 + v / 4096 % 64) :: (128 + v / 64 % 64) ::
            (128 + v % 64) :: rest) 0 = 240 + v / 262144 := rfl
        have e1 : byteAt ((240 + v / 262144) :: (128 + v / 4096 % 64) :: (128 + v / 64 % 64) ::
            (128 + v % 64) :: rest) 1 = 128 + v / 4096 % 64 := rfl
        have e2 : byteAt ((240 + v / 262144) :: (128 + v / 4096 % 64) :: (128 + v / 64 % 64) ::
            (128 + v % 64) :: rest) 2 = 128 + v / 64 % 64 := rfl
        have e3 : byteAt ((240 + v / 262144) :: (128 + v / 4096 % 64) :: (128 + v / 64 % 64) ::
            (128 + v % 64) :: rest) 3 = 128 + v % 64 := rfl
        unfold utf8Dec1
        rw [e0, e1, e2, e3]
        rw [if_neg (by omega), if_neg (by omega), if_neg (by omega), if_neg (by omega),
          if_pos (by omega)]
        have hval : (240 + v / 262144 - 240) * 262144 + (128 + v / 4096 % 64 - 128) * 4096 +
            (128 + v / 64 % 64 - 128) * 64 + (128 + v % 64 - 128) = v := by omega
        by_cases hF0 : 240 + v / 262144 = 240
        · rw [if_pos hF0, if_neg (by omega : ¬(240 + v / 262144 = 244))]
          rw [if_pos (by omega), hval, hcv]
          rfl
        · rw [if_neg hF0]
          by_cases hF4 : 240 + v / 262144 = 244
          · rw [if_pos hF4]
            rw [if_pos (by omega), hval, hcv]
            rfl
          · rw [if_neg hF4]
            rw [if_pos (by omega), hval, hcv]
            rfl

theorem utf8DecAux_encode :
    ∀ (cs : List Char) (fuel : Nat), ((cs.map encodeChar).flatten).length ≤ fuel →
      utf8DecAux fuel ((cs.map encodeChar).flatten) = some cs := by
  intro cs
  induction cs with
  | nil =>
    intro fuel _
    cases fuel <;> rfl
  | cons c cs ih =>
    intro fuel hle
    obtain ⟨e0, es, henc⟩ : ∃ e0 es, encodeChar c = e0 :: es := by
      cases h : encodeChar c with
      | nil => exact absurd h (encodeChar_ne_nil c)
      | cons a t => exact ⟨a, t, rfl⟩
    simp only [List.map_cons, List.flatten_cons] at hle ⊢
    cases fuel with
    | zero =>
      exfalso
      rw [List.length_append, henc] at hle
      simp only [List.length_cons] at hle
      omega
    | succ f =>
      rw [henc, List.cons_append, utf8DecAux]
      have hstep : utf8Dec1 (e0 :: (es ++ (cs.map encodeChar).flatten)) =
          some (c, (cs.map encodeChar).flatten) := by
        rw [← List.cons_append, ← henc]
        exact utf8Dec1_encodeChar c _
      rw [hstep]
      have hfle : ((cs.map encodeChar).flatten).length ≤ f := by
        rw [List.length_append, henc] at hle
        simp only [List.length_cons] at hle
        omega
      show (utf8DecAux f ((cs.map encodeChar).flatten)).map (fun l => c :: l) = some (c :: cs)
      rw [ih f hfle]
      rfl

theorem utf8Dec_encode_list (l : List Char) :
    utf8Dec ((l.map encodeChar).flatten) = some l :=
  utf8DecAux_encode l _ (Nat.le_refl _)

theorem utf8DecStr_encodeUtf8 (s : String) : utf8DecStr (encodeUtf8 s) = some s := by
  unfold utf8DecStr encodeUtf8
  rw [utf8Dec_encode_list]
  rfl

/-- Deduplication leaves a duplicate-free list (with unseen elements) alone. -/
theorem dedupSeen_eq_self {α : Type} [DecidableEq α] :
    ∀ (l seen : List α), l.Nodup → (∀ x ∈ l, x ∉ seen) → dedupSeen seen l = l := by
  intro l
  induction l with
  | nil => intro seen _ _; rfl
  | cons x xs ih =>
    intro seen hnd hs
    unfold dedupSeen
    rw [if_neg (hs x (by simp))]
    congr 1
    refine ih (x :: seen) (List.nodup_cons.mp hnd).2 (fun y hy => ?_)
    intro hmem
    rcases List.mem_cons.mp hmem with rfl | hmem2
    · exact (List.nodup_cons.mp hnd).1 hy
    · exact hs y (by simp [hy]) hmem2

/-- A joined list is empty only when it is a single empty part. -/
theorem joinSep_eq_nil_iff (sep : Char) :
    ∀ ps : List (List Char), ps ≠ [] → (joinSep sep ps = [] ↔ ps = [[]]) := by
  intro ps hps
  match ps with
  | [p] =>
    constructor
    · intro h
      have hp : p = [] := h
      rw [hp]
    · intro h
      injection h with h1 _
  | p :: q :: qs =>
    constructor
    · intro h
      have h2 : p ++ sep :: joinSep sep (q :: qs) = [] := h
      rcases List.append_eq_nil.mp h2 with ⟨_, h3⟩
      cases h3
    · intro h
      injection h with _ h2
      cases h2

/-- The characters of a joined list come from the separator or from a part. -/
theorem mem_joinSep (sep : Char) :
    ∀ (ps : List (List Char)) (c : Char), c ∈ joinSep sep ps → c = sep ∨ ∃ p ∈ ps, c ∈ p := by
  intro ps
  induction ps with
  | nil => intro c hc; cases hc
  | cons p ps ih =>
    intro c hc
    cases ps with
    | nil => exact Or.inr ⟨p, by simp, hc⟩
    | cons q qs =>
      have hc2 : c ∈ p ++ sep :: joinSep sep (q :: qs) := hc
      rcases List.mem_append.mp hc2 with h | h
      · exact Or.inr ⟨p, by simp, h⟩
      · rcases List.mem_cons.mp h with rfl | h2
        · exact Or.inl rfl
        · rcases ih c h2 with h3 | ⟨r, hr, hcr⟩
          · exact Or.inl h3
          · exact Or.inr ⟨r, by simp [hr], hcr⟩

theorem intRepr_ne_nil (n : ℤ) : (intRepr n).data ≠ [] := by
  unfold intRepr
  intro hc
  rcases List.append_eq_nil.mp hc with ⟨_, h2⟩
  exact natDigs_ne_nil n.natAbs h2

/-- Membership of a `zipWith`, exposed through `getD`. -/
theorem mem_zipWith_getD {α β γ : Type} (f : α → β → γ) (da : α) (db : β) :
    ∀ (a : List α) (b : List β) (x : γ), x ∈ List.zipWith f a b →
      ∃ j, j < a.length ∧ j < b.length ∧ x = f (a.getD j da) (b.getD j db) := by
  intro a
  induction a with
  | nil => intro b x hx; simp at hx
  | cons p ps ih =>
    intro b x hx
    cases b with
    | nil => simp at hx
    | cons q qs =>
      rcases List.mem_cons.mp hx with rfl | hx2
      · exact ⟨0, by simp, by simp, by simp⟩
      · obtain ⟨j, hj1, hj2, hj3⟩ := ih qs x hx2
        exact ⟨j + 1, by simpa using Nat.succ_lt_succ hj1,
          by simpa using Nat.succ_lt_succ hj2, by simpa using hj3⟩

/-- Re-packing the characters of strings gives the strings back. -/
theorem map_mk_map_data (L : List String) :
    (L.map String.data).map (fun cs => (⟨cs⟩ : String)) = L := by
  induction L with
  | nil => rfl
  | cons s t ih =>
    simp only [List.map_cons] at ih ⊢
    rw [ih]

theorem goodCell_mem (s : String) (h : goodCell s = true) (c : Char) (hc : c ∈ s.data) :
    c ≠ ',' ∧ c ≠ '\n' ∧ c ≠ '\r' ∧ c ≠ '"' := by
  unfold goodCell at h
  rw [List.all_eq_true] at h
  have h1 := h c hc
  rw [Bool.not_eq_true', Bool.or_eq_false_iff, Bool.or_eq_false_iff,
    Bool.or_eq_false_iff] at h1
  exact ⟨of_decide_eq_false h1.1.1.1, of_decide_eq_false h1.1.1.2,
    of_decide_eq_false h1.1.2, of_decide_eq_false h1.2⟩

theorem goodCell_of_chars (s : String)
    (h : ∀ c ∈ s.data, c.isDigit = true ∨ c = '-' ∨ c = '.') : goodCell s = true := by
  unfold goodCell
  rw [List.all_eq_true]
  intro c hc
  obtain ⟨h1, h2, h3, h4⟩ := numChar_not_special c (h c hc)
  simp [h1, h2, h3, h4]

/-- Every field `to_csv` writes for a well-typed cell is free of separators,
CR and quotes. -/
theorem cellField_good (dt : Dtype) (c : Cell) (hok : cellOKForDtype dt c = true) :
    goodCell (cellField dt c) = true := by
  cases dt with
  | int64 =>
    obtain ⟨q, rfl, _⟩ := cellOK_int64 c hok
    have he : cellField Dtype.int64 (Cell.num q) = intRepr q.num := rfl
    rw [he]
    exact goodCell_of_chars _ (intRepr_chars q.num)
  | float64 =>
    rcases cellOK_float64 c hok with rfl | ⟨q, rfl, _⟩
    · rfl
    · have he : cellField Dtype.float64 (Cell.num q) = floatRepr q := rfl
      rw [he]
      exact goodCell_of_chars _ (floatRepr_chars q)
  | boolean =>
    obtain ⟨b, rfl⟩ := cellOK_boolean c hok
    cases b <;> rfl
  | object =>
    obtain ⟨s, rfl, _, hg⟩ := cellOK_object c hok
    exact hg

/-- The field of a well-typed non-missing cell is nonempty. -/
theorem cellField_ne_nil (dt : Dtype) (c : Cell) (hok : cellOKForDtype dt c = true)
    (hna : c ≠ Cell.na) : (cellField dt c).data ≠ [] := by
  cases dt with
  | int64 =>
    obtain ⟨q, rfl, _⟩ := cellOK_int64 c hok
    have he : cellField Dtype.int64 (Cell.num q) = intRepr q.num := rfl
    rw [he]
    exact intRepr_ne_nil q.num
  | float64 =>
    rcases cellOK_float64 c hok with rfl | ⟨q, rfl, _⟩
    · exact absurd rfl hna
    · have he : cellField Dtype.float64 (Cell.num q) = floatRepr q := rfl
      rw [he]
      exact floatRepr_ne_nil q
  | boolean =>
    obtain ⟨b, rfl⟩ := cellOK_boolean c hok
    cases b <;> decide
  | object =>
    obtain ⟨s, rfl, hnaf, _⟩ := cellOK_object c hok
    show s.data ≠ []
    obtain ⟨sd⟩ := s
    intro hc
    subst hc
    exact absurd hnaf (by decide)

/-- The conversion a re-read applies to a printed well-typed cell restores it. -/
theorem convertField_cellField (dt : Dtype) (c : Cell) (hok : cellOKForDtype dt c = true) :
    convertField dt (cellField dt c) = c := by
  cases dt with
  | int64 =>
    obtain ⟨q, rfl, hden⟩ := cellOK_int64 c hok
    show convertField Dtype.int64 (intRepr q.num) = Cell.num q
    unfold convertField
    rw [parseIntField_intRepr]
    conv_rhs => rw [← Rat.num_div_den q]
    rw [hden]
    norm_num
  | float64 =>
    rcases cellOK_float64 c hok with rfl | ⟨q, rfl, hdec⟩
    · rfl
    · exact convertField_float64_floatRepr q hdec
  | boolean =>
    obtain ⟨b, rfl⟩ := cellOK_boolean c hok
    cases b <;> rfl
  | object =>
    obtain ⟨s, rfl, hna, _⟩ := cellOK_object c hok
    show convertField Dtype.object s = Cell.str s
    unfold convertField
    rw [hna]
    rfl

theorem string_eq_empty_of_data_nil (s : String) (h : s.data = []) : s = "" := by
  obtain ⟨d⟩ := s
  have hd : d = [] := h
  rw [hd]

theorem bnot_isEmpty_of_ne_nil {α : Type} (l : List α) (h : l ≠ []) : (!l.isEmpty) = true := by
  cases l with
  | nil => exact absurd rfl h
  | cons a t => rfl

/-- Unpacking the round-trip side condition. -/
theorem roundTrippable_facts (df : DataFrame) (hrt : RoundTrippable df = true) :
    df.colNames ≠ []
    ∧ (∀ n ∈ df.colNames, n ≠ "" ∧ goodCell n = true)
    ∧ df.dtypes.length = df.colNames.length
    ∧ (∀ r ∈ df.rows, r.length = df.colNames.length)
    ∧ (∀ j, j < df.colNames.length →
        (∀ c ∈ colCells df j, cellOKForDtype (df.dtypes.getD j Dtype.object) c = true)
        ∧ (df.dtypes.getD j Dtype.object = Dtype.object →
            textColStable (colCells df j) = true)) := by
  unfold RoundTrippable at hrt
  simp only [Bool.and_eq_true] at hrt
  obtain ⟨⟨⟨⟨h1, h2⟩, h3⟩, h4⟩, h5⟩ := hrt
  refine ⟨?_, ?_, eq_of_beq h3, ?_, ?_⟩
  · intro hc
    rw [hc] at h1
    exact absurd h1 (by decide)
  · intro n hn
    have h := List.all_eq_true.mp h2 n hn
    rw [Bool.and_eq_true, Bool.not_eq_true'] at h
    refine ⟨fun hc => ?_, h.2⟩
    have hd := h.1
    rw [hc] at hd
    exact absurd hd (by decide)
  · intro r hr
    exact eq_of_beq (List.all_eq_true.mp h4 r hr)
  · intro j hj
    have h := List.all_eq_true.mp h5 j (List.mem_range.mpr hj)
    rw [Bool.and_eq_true] at h
    refine ⟨List.all_eq_true.mp h.1, fun hobj => ?_⟩
    have h2' := h.2
    rw [if_pos hobj] at h2'
    exact h2'

/-- Evaluating `parseCsv` once the physical lines are known. -/
theorem parseCsv_eq_of_split (content : String) (header : List Char) (body : List (List Char))
    (h : (splitSep '\n' content.data).filter (fun l => !l.isEmpty) = header :: body) :
    parseCsv content =
      (let rawNames := (splitSep ',' header).map (fun cs => (⟨cs⟩ : String))
       let names := dedupNames (unnamedFix 0 rawNames)
       let ncols := rawNames.length
       let fieldRows := body.map (fun l => (splitSep ',' l).map (fun cs => (⟨cs⟩ : String)))
       if fieldRows.any (fun r => decide (ncols < r.length)) then .error .parseFailure
       else
         let padded := fieldRows.map (fun r => r ++ List.replicate (ncols - r.length) "")
         let dtypes := (List.range ncols).map (fun j =>
           inferDtype (padded.map (fun r => r.getD j "")))
         .ok ⟨names, dtypes, padded.map (fun r => List.zipWith convertField dtypes r)⟩) := by
  simp only [parseCsv]
  rw [h]

/-- Evaluating `parseCsv` on a well-formed printed table. -/
theorem parseCsv_eval (content : String) (header : List Char) (body : List (List Char))
    (names : List String) (frows : List (List String))
    (hsplit : (splitSep '\n' content.data).filter (fun l => !l.isEmpty) = header :: body)
    (hhdr : (splitSep ',' header).map (fun cs => (⟨cs⟩ : String)) = names)
    (hnodup : names.Nodup) (hne : ∀ n ∈ names, n ≠ "")
    (hrows : body.map (fun l => (splitSep ',' l).map (fun cs => (⟨cs⟩ : String))) = frows)
    (hlen : ∀ r ∈ frows, r.length = names.length) :
    parseCsv content = .ok ⟨names,
      (List.range names.length).map (fun j => inferDtype (frows.map (fun r => r.getD j ""))),
      frows.map (fun r => List.zipWith convertField
        ((List.range names.length).map (fun j =>
          inferDtype (frows.map (fun r => r.getD j "")))) r)⟩ := by
  rw [parseCsv_eq_of_split content header body hsplit]
  simp only [hhdr, hrows]
  rw [unnamedFix_eq_self names 0 hne, dedupNames_eq_self names hnodup]
  have hany : frows.any (fun r => decide (names.length < r.length)) = false := by
    rw [List.any_eq_false]
    intro r hr
    rw [hlen r hr]
    simp
  rw [hany]
  simp only [Bool.false_eq_true, if_false]
  have hpad : frows.map (fun r => r ++ List.replicate (names.length - r.length) "") = frows := by
    have hid : frows.map (fun r => r ++ List.replicate (names.length - r.length) "") =
        frows.map id := List.map_congr_left (fun r hr => by
          rw [hlen r hr, Nat.sub_self]
          exact List.append_nil r)
    rw [hid, List.map_id]
  rw [hpad]

/-- Re-parsing the printed CSV of a round-trippable table recovers its names
and rows exactly (and its dtypes when it has at least one row). -/
theorem parseCsv_toCsv (df : DataFrame) (hrt : RoundTrippable df = true)
    (hnd : df.colNames.Nodup)
    (hrowna : ∀ r ∈ df.rows, ∃ c ∈ r, c ≠ Cell.na) :
    ∃ dts : List Dtype, parseCsv (toCsv df) = .ok ⟨df.colNames, dts, df.rows⟩
      ∧ dts.length = df.colNames.length
      ∧ (df.rows ≠ [] → dts = df.dtypes) := by
  obtain ⟨hcne, hnames, hdlen, hrlen, hcols⟩ := roundTrippable_facts df hrt
  have hNpos : 0 < df.colNames.length := List.length_pos.mpr hcne
  have hfOK : ∀ r ∈ df.rows, ∀ j, j < df.colNames.length →
      cellOKForDtype (df.dtypes.getD j Dtype.object) (r.getD j Cell.na) = true := by
    intro r hr j hj
    exact (hcols j hj).1 _ (List.mem_map_of_mem _ hr)
  have hfieldlen : ∀ r ∈ df.rows,
      (List.zipWith cellField df.dtypes r).length = df.colNames.length := by
    intro r hr
    rw [List.length_zipWith, hdlen, hrlen r hr]
    exact Nat.min_self _
  have hfieldgood : ∀ r ∈ df.rows, ∀ p ∈ (List.zipWith cellField df.dtypes r).map String.data,
      ∀ c ∈ p, c ≠ ',' ∧ c ≠ '\n' ∧ c ≠ '\r' ∧ c ≠ '"' := by
    intro r hr p hp c hc
    obtain ⟨f, hf, rfl⟩ := List.mem_map.mp hp
    obtain ⟨j, hjd, hjr, rfl⟩ := mem_zipWith_getD cellField Dtype.object Cell.na df.dtypes r f hf
    have hj : j < df.colNames.length := by rw [← hdlen]; exact hjd
    exact goodCell_mem _ (cellField_good _ _ (hfOK r hr j hj)) c hc
  have hhdr_nl : ('\n' : Char) ∉ joinSep ',' (df.colNames.map String.data) := by
    intro hm
    rcases mem_joinSep ',' _ '\n' hm with h | ⟨p, hp, hcp⟩
    · exact absurd h (by decide)
    · obtain ⟨n, hn, rfl⟩ := List.mem_map.mp hp
      exact (goodCell_mem n (hnames n hn).2 '\n' hcp).2.1 rfl
  have hrow_nl : ∀ r ∈ df.rows,
      ('\n' : Char) ∉ joinSep ',' ((List.zipWith cellField df.dtypes r).map String.data) := by
    intro r hr hm
    rcases mem_joinSep ',' _ '\n' hm with h | ⟨p, hp, hcp⟩
    · exact absurd h (by decide)
    · exact (hfieldgood r hr p hp '\n' hcp).2.1 rfl
  have hhdr_ne : joinSep ',' (df.colNames.map String.data) ≠ [] := by
    intro hc
    have hmapne : df.colNames.map String.data ≠ [] := by
      intro h0
      exact hcne (List.map_eq_nil_iff.mp h0)
    rw [joinSep_eq_nil_iff ',' _ hmapne] at hc
    cases hcn : df.colNames with
    | nil => exact hcne hcn
    | cons n ns =>
      rw [hcn] at hc
      simp only [List.map_cons] at hc
      injection hc with hx _
      exact (hnames n (by rw [hcn]; simp)).1 (string_eq_empty_of_data_nil n hx)
  have hrow_ne : ∀ r ∈ df.rows,
      joinSep ',' ((List.zipWith cellField df.dtypes r).map String.data) ≠ [] := by
    intro r hr hc
    have hmapne : (List.zipWith cellField df.dtypes r).map String.data ≠ [] := by
      intro h0
      have h0' := List.map_eq_nil_iff.mp h0
      have hl := hfieldlen r hr
      rw [h0'] at hl
      simp only [List.length_nil] at hl
      omega
    rw [joinSep_eq_nil_iff ',' _ hmapne] at hc
    have hlen1 : df.colNames.length = 1 := by
      have hlc := congrArg List.length hc
      simp only [List.length_map] at hlc
      rw [hfieldlen r hr] at hlc
      simpa using hlc
    obtain ⟨c0, hc0mem, hc0na⟩ := hrowna r hr
    have hrl := hrlen r hr
    rw [hlen1] at hrl
    obtain ⟨x, hx⟩ : ∃ x, r = [x] := by
      cases r with
      | nil => cases hrl
      | cons a t =>
        cases t with
        | nil => exact ⟨a, rfl⟩
        | cons b u =>
          simp only [List.length_cons] at hrl
          omega
    subst hx
    have hcx : c0 = x := List.mem_singleton.mp hc0mem
    have hdl1 : df.dtypes.length = 1 := by rw [hdlen, hlen1]
    obtain ⟨dt, hdt⟩ : ∃ dt, df.dtypes = [dt] := by
      cases hds : df.dtypes with
      | nil => rw [hds] at hdl1; cases hdl1
      | cons a t =>
        cases t with
        | nil => exact ⟨a, rfl⟩
        | cons b u =>
          rw [hds] at hdl1
          simp only [List.length_cons] at hdl1
          omega
    rw [hdt] at hc
    injection hc with hx1 _
    have hok0 := hfOK [x] hr 0 hNpos
    rw [hdt] at hok0
    exact cellField_ne_nil dt x hok0 (hcx ▸ hc0na) hx1
  have hdata : (toCsv df).data = joinSep '\n'
      ((joinSep ',' (df.colNames.map String.data) ::
        df.rows.map (fun r => joinSep ','
          ((List.zipWith cellField df.dtypes r).map String.data))) ++ [[]]) := by
    rw [joinSep_append_nil '\n' _ (by simp)]
    rfl
  have hsplit : (splitSep '\n' (toCsv df).data).filter (fun l => !l.isEmpty) =
      joinSep ',' (df.colNames.map String.data) ::
        df.rows.map (fun r => joinSep ','
          ((List.zipWith cellField df.dtypes r).map String.data)) := by
    rw [hdata]
    have hparts : ∀ p ∈ (joinSep ',' (df.colNames.map String.data) ::
        df.rows.map (fun r => joinSep ','
          ((List.zipWith cellField df.dtypes r).map String.data))) ++ [[]],
        ('\n' : Char) ∉ p := by
      intro p hp
      rcases List.mem_append.mp hp with hp | hp
      · rcases List.mem_cons.mp hp with rfl | hp2
        · exact hhdr_nl
        · obtain ⟨r, hr, rfl⟩ := List.mem_map.mp hp2
          exact hrow_nl r hr
      · have hpe : p = [] := List.mem_singleton.mp hp
        rw [hpe]
        exact List.not_mem_nil _
    rw [splitSep_joinSep '\n' _ (by simp) hparts]
    rw [List.filter_append]
    have h2 : ([([] : List Char)]).filter (fun l => !l.isEmpty) = [] := rfl
    rw [h2, List.append_nil]
    refine List.filter_eq_self.mpr ?_
    intro l hl
    rcases List.mem_cons.mp hl with rfl | hl2
    · exact bnot_isEmpty_of_ne_nil _ hhdr_ne
    · obtain ⟨r, hr, rfl⟩ := List.mem_map.mp hl2
      exact bnot_isEmpty_of_ne_nil _ (hrow_ne r hr)
  have hhdr : (splitSep ',' (joinSep ',' (df.colNames.map String.data))).map
      (fun cs => (⟨cs⟩ : String)) = df.colNames := by
    rw [splitSep_joinSep ',' _ (by
        intro h0
        exact hcne (List.map_eq_nil_iff.mp h0)) (fun p hp => by
        obtain ⟨n, hn, rfl⟩ := List.mem_map.mp hp
        intro hcm
        exact (goodCell_mem n (hnames n hn).2 ',' hcm).1 rfl)]
    exact map_mk_map_data _
  have hrows : (df.rows.map (fun r => joinSep ','
      ((List.zipWith cellField df.dtypes r).map String.data))).map
      (fun l => (splitSep ',' l).map (fun cs => (⟨cs⟩ : String))) =
      df.rows.map (fun r => List.zipWith cellField df.dtypes r) := by
    rw [List.map_map]
    refine List.map_congr_left (fun r hr => ?_)
    show (splitSep ',' (joinSep ',' ((List.zipWith cellField df.dtypes r).map String.data))).map
      (fun cs => (⟨cs⟩ : String)) = List.zipWith cellField df.dtypes r
    rw [splitSep_joinSep ',' _ (by
        intro h0
        have h0' := List.map_eq_nil_iff.mp h0
        have hl := hfieldlen r hr
        rw [h0'] at hl
        simp only [List.length_nil] at hl
        omega) (fun p hp => by
        intro hcm
        exact (hfieldgood r hr p hp ',' hcm).1 rfl)]
    exact map_mk_map_data _
  have hflen : ∀ r' ∈ df.rows.map (fun r => List.zipWith cellField df.dtypes r),
      r'.length = df.colNames.length := by
    intro r' hr'
    obtain ⟨r, hr, rfl⟩ := List.mem_map.mp hr'
    exact hfieldlen r hr
  have heval := parseCsv_eval (toCsv df) _ _ df.colNames
      (df.rows.map (fun r => List.zipWith cellField df.dtypes r))
      hsplit hhdr hnd (fun n hn => (hnames n hn).1) hrows hflen
  have hcolfields : ∀ j, j < df.colNames.length →
      (df.rows.map (fun r => List.zipWith cellField df.dtypes r)).map (fun r => r.getD j "") =
      (colCells df j).map (cellField (df.dtypes.getD j Dtype.object)) := by
    intro j hj
    rw [List.map_map]
    unfold colCells
    rw [List.map_map]
    refine List.map_congr_left (fun r hr => ?_)
    show (List.zipWith cellField df.dtypes r).getD j "" =
      cellField (df.dtypes.getD j Dtype.object) (r.getD j Cell.na)
    exact getD_zipWith cellField df.dtypes r j Dtype.object Cell.na ""
      (by rw [hdlen]; exact hj) (by rw [hrlen r hr]; exact hj)
  have hDTSlen : ((List.range df.colNames.length).map (fun j =>
      inferDtype ((df.rows.map (fun r => List.zipWith cellField df.dtypes r)).map
        (fun r => r.getD j "")))).length = df.colNames.length := by
    rw [List.length_map, List.length_range]
  have hDTS : df.rows ≠ [] → (List.range df.colNames.length).map (fun j =>
      inferDtype ((df.rows.map (fun r => List.zipWith cellField df.dtypes r)).map
        (fun r => r.getD j ""))) = df.dtypes := by
    intro hrne
    refine list_ext_getD Dtype.object _ _ (by rw [hDTSlen, hdlen]) ?_
    intro j hj
    rw [hDTSlen] at hj
    rw [getD_map _ (List.range df.colNames.length) j 0 Dtype.object (by simpa using hj)]
    rw [show (List.range df.colNames.length).getD j 0 = j from by
      rw [List.getD_eq_getElem _ _ (by simpa using hj)]
      simp]
    rw [hcolfields j hj]
    have hcne2 : colCells df j ≠ [] := by
      unfold colCells
      intro h0
      exact hrne (List.map_eq_nil_iff.mp h0)
    have hok2 : ∀ c ∈ colCells df j,
        cellOKForDtype (df.dtypes.getD j Dtype.object) c = true := (hcols j hj).1
    cases hdt : df.dtypes.getD j Dtype.object with
    | int64 =>
      rw [hdt] at hok2
      exact (reinf_int64 _ hcne2 hok2).1
    | float64 =>
      rw [hdt] at hok2
      exact (reinf_float64 _ hcne2 hok2).1
    | boolean =>
      rw [hdt] at hok2
      exact (reinf_boolean _ hcne2 hok2).1
    | object =>
      rw [hdt] at hok2
      exact (reinf_object _ hcne2 hok2 ((hcols j hj).2 hdt)).1
  have hrowsid : (df.rows.map (fun r => List.zipWith cellField df.dtypes r)).map
      (fun r => List.zipWith convertField ((List.range df.colNames.length).map (fun j =>
        inferDtype ((df.rows.map (fun r => List.zipWith cellField df.dtypes r)).map
          (fun r => r.getD j "")))) r) = df.rows := by
    by_cases hre : df.rows = []
    · rw [hre]
      rfl
    · rw [hDTS hre]
      rw [List.map_map]
      have hrowid1 : ∀ r ∈ df.rows,
          List.zipWith convertField df.dtypes (List.zipWith cellField df.dtypes r) = r := by
        intro r hr
        refine list_ext_getD Cell.na _ _ ?_ ?_
        · rw [List.length_zipWith, List.length_zipWith, hdlen, hrlen r hr]
          simp [Nat.min_self]
        · intro j hj
          have hjN : j < df.colNames.length := by
            rw [List.length_zipWith, List.length_zipWith, hdlen, hrlen r hr] at hj
            simpa [Nat.min_self] using hj
          rw [getD_zipWith convertField df.dtypes (List.zipWith cellField df.dtypes r) j
            Dtype.object "" Cell.na (by rw [hdlen]; exact hjN)
            (by rw [hfieldlen r hr]; exact hjN)]
          rw [getD_zipWith cellField df.dtypes r j Dtype.object Cell.na ""
            (by rw [hdlen]; exact hjN) (by rw [hrlen r hr]; exact hjN)]
          exact convertField_cellField _ _ (hfOK r hr j hjN)
      have hid : df.rows.map ((fun r => List.zipWith convertField df.dtypes r) ∘
          (fun r => List.zipWith cellField df.dtypes r)) = df.rows.map id :=
        List.map_congr_left (fun r hr => hrowid1 r hr)
      rw [hid, List.map_id]
  refine ⟨(List.range df.colNames.length).map (fun j =>
      inferDtype ((df.rows.map (fun r => List.zipWith cellField df.dtypes r)).map
        (fun r => r.getD j ""))), ?_, hDTSlen, hDTS⟩
  rw [heval]
  exact congrArg (fun rows => (Except.ok (⟨df.colNames, (List.range df.colNames.length).map
    (fun j => inferDtype ((df.rows.map (fun r => List.zipWith cellField df.dtypes r)).map
      (fun r => r.getD j ""))), rows⟩ : DataFrame) : Except PyError DataFrame)) hrowsid

/-- The cleaning phase is the identity on a table already carrying its
invariants (stripped distinct names, stripped object cells, no all-missing
rows, no duplicate rows). -/
theorem cleanE_eq_self (df : DataFrame)
    (hstrip : ∀ n ∈ df.colNames, pstrip n = n)
    (hnd : df.colNames.Nodup)
    (hdlen2 : ∀ r ∈ df.rows, r.length ≤ df.dtypes.length)
    (hobj : ∀ r ∈ df.rows, ∀ j, j < r.length → df.dtypes.getD j Dtype.object = Dtype.object →
        ∃ s, r.getD j Cell.na = Cell.str s ∧ pstrip s = s)
    (hna : ∀ r ∈ df.rows, ∃ c ∈ r, c ≠ Cell.na)
    (hndr : df.rows.Nodup) :
    cleanE df = .ok df := by
  have hmap : df.colNames.map pstrip = df.colNames := by
    have h1 : df.colNames.map pstrip = df.colNames.map id := List.map_congr_left hstrip
    rw [h1, List.map_id]
  have hdf1 : ({ df with colNames := df.colNames.map pstrip } : DataFrame) = df := by
    rw [hmap]
  have htrim : trimCells df = df := by
    unfold trimCells
    have hrows2 : df.rows.map (fun r => List.zipWith (fun dt c =>
        if dt = Dtype.object then Cell.str (pstrip (pyStr c)) else c) df.dtypes r) = df.rows := by
      have h1 : df.rows.map (fun r => List.zipWith (fun dt c =>
          if dt = Dtype.object then Cell.str (pstrip (pyStr c)) else c) df.dtypes r) =
          df.rows.map id := by
        refine List.map_congr_left (fun r hr => ?_)
        show List.zipWith (fun dt c =>
          if dt = Dtype.object then Cell.str (pstrip (pyStr c)) else c) df.dtypes r = r
        refine list_ext_getD Cell.na _ _ ?_ ?_
        · rw [List.length_zipWith]
          exact Nat.min_eq_right (hdlen2 r hr)
        · intro j hj
          rw [List.length_zipWith, Nat.min_eq_right (hdlen2 r hr)] at hj
          rw [getD_zipWith _ df.dtypes r j Dtype.object Cell.na Cell.na
            (lt_of_lt_of_le hj (hdlen2 r hr)) hj]
          by_cases hdt : df.dtypes.getD j Dtype.object = Dtype.object
          · rw [if_pos hdt]
            obtain ⟨t, ht, hpt⟩ := hobj r hr j hj hdt
            rw [ht]
            show Cell.str (pstrip t) = Cell.str t
            rw [hpt]
          · rw [if_neg hdt]
      rw [h1, List.map_id]
    rw [hrows2]
  have hdropna : dropAllNaRows df = df := by
    unfold dropAllNaRows
    have h2 : df.rows.filter (fun r => r.any (fun c => decide (c ≠ Cell.na))) = df.rows :=
      List.filter_eq_self.mpr (fun r hr => List.any_eq_true.mpr (by
        obtain ⟨c, hc, hcna⟩ := hna r hr
        exact ⟨c, hc, decide_eq_true hcna⟩))
    rw [h2]
  have hdedup : dropDuplicatesRows df = df := by
    unfold dropDuplicatesRows drop_duplicates
    have h3 : dedupSeen [] df.rows = df.rows :=
      dedupSeen_eq_self df.rows [] hndr (fun x _ hx => (List.not_mem_nil x) hx)
    rw [h3]
  unfold cleanE
  have hnd2 : (df.colNames.map pstrip).Nodup := by rw [hmap]; exact hnd
  simp only [if_pos hnd2]
  rw [hdf1, htrim, hdropna, hdedup]

/-- C9: the idempotence claim as stated is false for the program: re-saving a
cleaned table and re-loading it can change cell values.  A whitespace-only
text cell is stripped to the empty string by the first pass; `to_csv` writes
it as an empty field, which `read_csv` re-reads as missing, and the second
cleaning pass then stringifies it to `"nan"`. -/
theorem C9_counterexample :
    ∃ df1 df2 : DataFrame,
      load_and_clean "t.csv" (asciiBytes "a,b\nx,1\n ,2\n") sheet0 = .ok df1
      ∧ load_and_clean "cleaned.csv" (encodeUtf8 (toCsv df1)) sheet0 = .ok df2
      ∧ df2.rows ≠ df1.rows := by
  refine ⟨⟨["a", "b"], [Dtype.object, Dtype.int64],
      [[Cell.str "x", Cell.num 1], [Cell.str "", Cell.num 2]]⟩,
    ⟨["a", "b"], [Dtype.object, Dtype.int64],
      [[Cell.str "x", Cell.num 1], [Cell.str "nan", Cell.num 2]]⟩, ?_, ?_, ?_⟩
  · decide
  · decide
  · decide

/-- C9 (amended): for every table the loader/cleaner returns whose cells
survive the CSV text representation (`RoundTrippable`: nonempty
separator-free column names, rectangular shape, well-typed cells without
missing-value tokens or separator characters, and text columns that do not
re-infer as numeric or boolean), running `load_and_clean` on the table
re-saved as CSV succeeds and yields the same columns and the same rows: no
further row removal, deduplication, renaming or cell change occurs. -/
theorem C9_cleaner_idempotent_roundtrip (name : String) (bytes : List Nat)
    (sheet : Except PyError DataFrame) (df : DataFrame)
    (hload : load_and_clean name bytes sheet = .ok df)
    (hrt : RoundTrippable df = true) :
    ∃ df2 : DataFrame,
      load_and_clean "cleaned.csv" (encodeUtf8 (toCsv df)) sheet0 = .ok df2
      ∧ df2.colNames = df.colNames ∧ df2.rows = df.rows := by
  obtain ⟨df0, hclean⟩ := load_ok_cleanE name bytes sheet df hload
  obtain ⟨_, hstrip, hndr, hna, hobj⟩ := cleanE_ok_invariants df0 df hclean
  have hnd : df.colNames.Nodup := (cleanE_ok_facts df0 df hclean).2
  obtain ⟨_, _, _, hrlen, _⟩ := roundTrippable_facts df hrt
  obtain ⟨dts, hparse, hdtslen, hdts⟩ := parseCsv_toCsv df hrt hnd hna
  have hcleanid : cleanE ⟨df.colNames, dts, df.rows⟩ = .ok ⟨df.colNames, dts, df.rows⟩ := by
    refine cleanE_eq_self _ hstrip hnd ?_ ?_ hna hndr
    · intro r hr
      show r.length ≤ dts.length
      rw [hdtslen, hrlen r hr]
    · intro r hr j hj hdto
      refine hobj r hr j hj ?_
      by_cases hre : df.rows = []
      · rw [hre] at hr
        cases hr
      · rw [← hdts hre]
        exact hdto
  refine ⟨⟨df.colNames, dts, df.rows⟩, ?_, rfl, rfl⟩
  have hext : pyEndsWith (pyLower "cleaned.csv") ".csv" = true := by decide
  show load_and_clean "cleaned.csv" (encodeUtf8 (toCsv df)) sheet0 =
    .ok ⟨df.colNames, dts, df.rows⟩
  simp only [load_and_clean]
  rw [if_pos hext]
  unfold csvPipeline
  rw [utf8DecStr_encodeUtf8 (toCsv df)]
  show parseCleanCsv (toCsv df) = .ok ⟨df.colNames, dts, df.rows⟩
  unfold parseCleanCsv
  rw [hparse]
  exact hcleanid

/-- C9 witness: the amended idempotence theorem applied to a concrete loaded
table with a text column and an integer column. -/
theorem C9_cleaner_idempotent_roundtrip_witness :
    ∃ df2 : DataFrame,
      load_and_clean "cleaned.csv" (encodeUtf8 (toCsv (⟨["a", "b"],
          [Dtype.object, Dtype.int64],
          [[Cell.str "x", Cell.num 1], [Cell.str "y", Cell.num 2]]⟩ : DataFrame))) sheet0 =
        .ok df2
      ∧ df2.colNames = (⟨["a", "b"], [Dtype.object, Dtype.int64],
          [[Cell.str "x", Cell.num 1], [Cell.str "y", Cell.num 2]]⟩ : DataFrame).colNames
      ∧ df2.rows = (⟨["a", "b"], [Dtype.object, Dtype.int64],
          [[Cell.str "x", Cell.num 1], [Cell.str "y", Cell.num 2]]⟩ : DataFrame).rows :=
  C9_cleaner_idempotent_roundtrip "t.csv" (asciiBytes "a,b\nx,1\ny,2\n") sheet0
    ⟨["a", "b"], [Dtype.object, Dtype.int64],
      [[Cell.str "x", Cell.num 1], [Cell.str "y", Cell.num 2]]⟩
    (by decide) (by decide)

end BAD
